import Mathlib

/-!
Verification of the `ascii_graphics` grid buffer and rasterization engine
(`src/screen.rs`, `src/border.rs`).

The `Screen` struct is embedded shallowly: the `Vec<char>` buffer becomes a
`List Char`, `u32` coordinates become `Nat`, and the `i64` arithmetic of the
circle rasterizer becomes `Int`.  A panicking indexed access
(`impl Index/IndexMut for Screen`) is modelled by the `Option`-valued
`getCell?` / `setCell?`; the drawing operations, whose claims only ever reach
in-bounds writes, use the total `setCell` whose out-of-bounds branch is a
no-op (that branch is unreachable under the in-bounds hypotheses of the
theorems below, where the Rust code would panic).

The `f32` arithmetic of `Screen::line` is embedded as follows.  The
`u32 as f32` casts are modelled by `natToF32`, the exact value of the IEEE
conversion (round to nearest at the `f32` precision of the magnitude, ties
to even): it is the identity below `2^24` and collapses larger values, e.g.
`2^24 + 1 ↦ 2^24`.  The arithmetic on the cast values (the subtractions,
the division, the `y += slope` accumulation) is modelled by exact rationals
extended with the two infinities and NaN (`Fl`); this part is an
idealization that is exact on the small integral slopes the claims
exercise, and for vertical segments — where only the sign/NaN case
analysis of `dy / 0.0` and the comparison `slope > 0.0` are consumed — it
agrees with `f32`, since rounding a difference of two `f32` values
preserves its sign and zeroness.

The animation fields (`update_function`) and the terminal I/O
(`print`, `clear`, `run`) are outside the embedding; no claim touches them.
-/

/-- Embeds `struct Screen` from `src/screen.rs` (without the animation
callback field `update_function`, which no claim concerns). -/
structure Screen where
  width : Nat
  height : Nat
  buffer : List Char
  fill_value : Char
  fill : Bool
  stroke : Bool
  stroke_value : Char
  deriving DecidableEq

/-- Embeds `struct Settings` from `src/border.rs` (the spec's BorderStyle). -/
structure Settings where
  corners : Char
  top : Char
  left : Char
  bottom : Char
  right : Char
  deriving DecidableEq

/-- Rust's half-open range `a..b` as a list of `Nat`. -/
def natRange (a b : Nat) : List Nat :=
  (List.range (b - a)).map (a + ·)

/-- Embeds `impl Index<(u32, u32)> for Screen`: `none` models the panic, both
for the explicit bounds check and for the `Vec` access itself. -/
def getCell? (s : Screen) (x y : Nat) : Option Char :=
  if s.width ≤ x ∨ s.height ≤ y then none
  else s.buffer[y * s.width + x]?

/-- Embeds `impl IndexMut<(u32, u32)> for Screen` used as an lvalue:
`none` models the panic (explicit bounds check, or the `Vec` write itself). -/
def setCell? (s : Screen) (x y : Nat) (c : Char) : Option Screen :=
  if s.width ≤ x ∨ s.height ≤ y then none
  else if y * s.width + x < s.buffer.length then
    some { s with buffer := s.buffer.set (y * s.width + x) c }
  else none

/-- Total version of the indexed write `self[(x, y)] = c`, used by the
drawing operations.  Where the Rust code would panic (out of bounds) this is
a no-op; every claim below supplies in-bounds hypotheses under which that
branch is unreachable, so on the claimed executions it agrees with
`setCell?`. -/
def setCell (s : Screen) (x y : Nat) (c : Char) : Screen :=
  if x < s.width ∧ y < s.height then
    { s with buffer := s.buffer.set (y * s.width + x) c }
  else s

/-- Total indexed read `self[(x, y)]` for in-bounds use inside `shl`. -/
def cellD (s : Screen) (x y : Nat) : Char :=
  s.buffer.getD (y * s.width + x) ' '

/-- Applies a list of `(x, y, char)` writes left to right with `setCell`:
the common shape of every loop body `self[(i, j)] = v` in `screen.rs`. -/
def writeCells (s : Screen) (ws : List (Nat × Nat × Char)) : Screen :=
  ws.foldl (fun t w => setCell t w.1 w.2.1 w.2.2) s

/-- Later writes win. -/
def overlay (o d : Option Char) : Option Char :=
  match o with
  | some c => some c
  | none => d

/-- The value left at `(x, y)` by a write list (last matching write wins),
`none` when no write targets `(x, y)`. -/
def lastVal : List (Nat × Nat × Char) → Nat → Nat → Option Char
  | [], _, _ => none
  | w :: ws, x, y =>
      overlay (lastVal ws x y) (if w.1 = x ∧ w.2.1 = y then some w.2.2 else none)

/-- Embeds `Screen::fill` (spec name `set_fill`; renamed because the Lean
field accessor `Screen.fill` takes the source name). -/
def set_fill (s : Screen) (value : Char) : Screen :=
  { s with fill_value := value, fill := true }

/-- Embeds `Screen::no_fill`. -/
def no_fill (s : Screen) : Screen :=
  { s with fill := false }

/-- Embeds `Screen::stroke` (spec name `set_stroke`; renamed because the
Lean field accessor `Screen.stroke` takes the source name). -/
def set_stroke (s : Screen) (value : Char) : Screen :=
  { s with stroke_value := value, stroke := true }

/-- Embeds `Screen::no_stroke`. -/
def no_stroke (s : Screen) : Screen :=
  { s with stroke := false }

/-- The two edge-writing loop passes shared verbatim by `Screen::soild_border`
and `Screen::border`: first `for x in 0..width` writing `(x, 0)` and
`(x, height-1)`, then `for y in 0..height` writing `(0, y)` and
`(width-1, y)`, in source order. -/
def outlineWrites (wd ht : Nat) (t b l r : Char) : List (Nat × Nat × Char) :=
  ((List.range wd).flatMap fun x => [(x, 0, t), (x, ht - 1, b)]) ++
  ((List.range ht).flatMap fun y => [(0, y, l), (wd - 1, y, r)])

/-- Embeds `Screen::soild_border` (source spelling): both edge passes write
the single character `value`. -/
def soild_border (s : Screen) (value : Char) : Screen :=
  writeCells s (outlineWrites s.width s.height value value value value)

/-- Embeds `Screen::border`: the edge passes with the style's characters,
then the four corner writes, last. -/
def border (s : Screen) (settings : Settings) : Screen :=
  writeCells s
    (outlineWrites s.width s.height settings.top settings.bottom
        settings.left settings.right ++
      [(0, 0, settings.corners), (0, s.height - 1, settings.corners),
        (s.width - 1, 0, settings.corners),
        (s.width - 1, s.height - 1, settings.corners)])

/-- The writes of `Screen::text`: `for i in x..width` pulls successive
characters, breaking when the text is exhausted (`i` is the current column,
`wd` the screen width). -/
def textWrites : List Char → Nat → Nat → Nat → List (Nat × Nat × Char)
  | [], _, _, _ => []
  | c :: rest, i, wd, y =>
      if i < wd then (i, y, c) :: textWrites rest (i + 1) wd y else []

/-- Embeds `Screen::text` (the string argument as its character list). -/
def text (s : Screen) (value : List Char) (x y : Nat) : Screen :=
  writeCells s (textWrites value x s.width y)

/-- The writes of `Screen::rect`: the fill pass over the whole inclusive box
(outer loop on `i`, inner on `j`), then the stroke pass (horizontal edges
for each `i`, then vertical edges for each `j`), each pass guarded by its
flag, in source order. -/
def rectWrites (s : Screen) (x y width height : Nat) : List (Nat × Nat × Char) :=
  let half_w := width / 2
  let half_h := height / 2
  (if s.fill = true then
      (natRange (x - half_w) (x + half_w + 1)).flatMap fun i =>
        (natRange (y - half_h) (y + half_h + 1)).map fun j => (i, j, s.fill_value)
    else []) ++
  (if s.stroke = true then
      ((natRange (x - half_w) (x + half_w + 1)).flatMap fun i =>
        [(i, y - half_h, s.stroke_value), (i, y + half_h, s.stroke_value)]) ++
      ((natRange (y - half_h) (y + half_h + 1)).flatMap fun j =>
        [(x - half_w, j, s.stroke_value), (x + half_w, j, s.stroke_value)])
    else [])

/-- Embeds `Screen::rect`. -/
def rect (s : Screen) (x y width height : Nat) : Screen :=
  writeCells s (rectWrites s x y width height)

/-- The squared distance `dx*dx + dy*dy` of `Screen::circle`, in `Int`
(the source computes it in `i64`). -/
def sqDist (x y i j : Nat) : Int :=
  ((i : Int) - (x : Int)) * ((i : Int) - (x : Int)) +
    ((j : Int) - (y : Int)) * ((j : Int) - (y : Int))

/-- The writes of `Screen::circle`: for each `(i, j)` of the bounding box,
at most one write, chosen by the `if dist < r2 && fill` /
`else if (dist == r2 || dist == r2 + 1) && stroke` chain. -/
def circleWrites (s : Screen) (x y radius : Nat) : List (Nat × Nat × Char) :=
  let r2 : Int := (radius : Int) * (radius : Int)
  (natRange (x - radius) (x + radius + 1)).flatMap fun i =>
    (natRange (y - radius) (y + radius + 1)).flatMap fun j =>
      if sqDist x y i j < r2 ∧ s.fill = true then [(i, j, s.fill_value)]
      else if (sqDist x y i j = r2 ∨ sqDist x y i j = r2 + 1) ∧ s.stroke = true then
        [(i, j, s.stroke_value)]
      else []

/-- Embeds `Screen::circle` (spec name `draw_circle`; the bare name
`circle` is taken by Mathlib). -/
def draw_circle (s : Screen) (x y radius : Nat) : Screen :=
  writeCells s (circleWrites s x y radius)

/-- Embeds the value of one `f32` of `Screen::line` exactly: a finite
rational, an infinity, or NaN.  Finite `f32` arithmetic is modelled as exact
rational arithmetic; on the integral slopes the claims exercise this agrees
with `f32`, and division by zero produces the infinity or NaN `f32` does. -/
inductive Fl where
  | fin : ℚ → Fl
  | pinf : Fl
  | ninf : Fl
  | nan : Fl
  deriving DecidableEq

/-- The `f32` division `dy / dx` of `Screen::line`, with the IEEE sign
convention on zero divisors (`q/0 = ±∞`, `0/0 = NaN`). -/
def fdiv (a b : ℚ) : Fl :=
  if b ≠ 0 then Fl.fin (a / b)
  else if 0 < a then Fl.pinf
  else if a < 0 then Fl.ninf
  else Fl.nan

/-- The comparison `slope > 0.0` (false on NaN, as in IEEE). -/
def fgtZero : Fl → Bool
  | Fl.fin q => if 0 < q then true else false
  | Fl.pinf => true
  | Fl.ninf => false
  | Fl.nan => false

/-- The `f32` addition `y += slope` (NaN propagates, `∞ + -∞ = NaN`). -/
def fadd : Fl → Fl → Fl
  | Fl.nan, _ => Fl.nan
  | _, Fl.nan => Fl.nan
  | Fl.fin a, Fl.fin b => Fl.fin (a + b)
  | Fl.fin _, Fl.pinf => Fl.pinf
  | Fl.fin _, Fl.ninf => Fl.ninf
  | Fl.pinf, Fl.fin _ => Fl.pinf
  | Fl.pinf, Fl.pinf => Fl.pinf
  | Fl.pinf, Fl.ninf => Fl.nan
  | Fl.ninf, Fl.fin _ => Fl.ninf
  | Fl.ninf, Fl.pinf => Fl.nan
  | Fl.ninf, Fl.ninf => Fl.ninf

/-- The expression `y.round() as u32` of `Screen::line`: `f32::round` is
round-half-away-from-zero and `as u32` saturates (negative and NaN to 0,
`+∞` to `u32::MAX`). -/
def froundU32 : Fl → Nat
  | Fl.fin q => if q ≤ 0 then 0 else min (Int.toNat ⌊q + 1 / 2⌋) (2 ^ 32 - 1)
  | Fl.pinf => 2 ^ 32 - 1
  | Fl.ninf => 0
  | Fl.nan => 0

/-- Iterated `y += slope`, giving the `y` value of `Screen::line` after `k`
loop iterations. -/
def faddIter (y slope : Fl) : Nat → Fl
  | 0 => y
  | k + 1 => faddIter (fadd y slope) slope k

/-- The writes of the `while x <= max` loop of `Screen::line`: `n` remaining
iterations, current column `x`, current accumulator `y`. -/
def lineWritesAux (slope : Fl) (v : Char) : Nat → Fl → Nat → List (Nat × Nat × Char)
  | _, _, 0 => []
  | x, y, n + 1 =>
      (x, froundU32 y, v) :: lineWritesAux slope v (x + 1) (fadd y slope) n

/-- The spacing of the `f32` grid at the magnitude of the `u32` value `n`:
`f32` has a 24-bit significand, so values in `[2^(23+k), 2^(24+k))` are
rounded to multiples of `2^k`. -/
def f32ulp (n : Nat) : Nat :=
  if n < 2 ^ 24 then 1
  else if n < 2 ^ 25 then 2
  else if n < 2 ^ 26 then 4
  else if n < 2 ^ 27 then 8
  else if n < 2 ^ 28 then 16
  else if n < 2 ^ 29 then 32
  else if n < 2 ^ 30 then 64
  else if n < 2 ^ 31 then 128
  else 256

/-- The exact value of the cast `n as f32` for a `u32` value `n`: round `n`
to the nearest multiple of `f32ulp n` (IEEE round-to-nearest, ties to the
even significand).  The result of the cast is always a nonnegative integer
(at most `2^32`), so it is returned as a `Nat`.  Below `2^24` the cast is
the identity; above, distinct values can collapse (`2^24 + 1 ↦ 2^24`). -/
def natToF32 (n : Nat) : Nat :=
  if 2 * (n % f32ulp n) < f32ulp n then n / f32ulp n * f32ulp n
  else if f32ulp n < 2 * (n % f32ulp n) then (n / f32ulp n + 1) * f32ulp n
  else if n / f32ulp n % 2 = 0 then n / f32ulp n * f32ulp n
  else (n / f32ulp n + 1) * f32ulp n

/-- The `u32` selected as the seed of the `y` accumulator of `Screen::line`
(before its cast to `f32`): `if slope > 0.0 { min(y1, y2) } else
{ max(y1, y2) }`, where `slope = (y2 as f32 - y1 as f32) / (x2 as f32 -
x1 as f32)` with the casts modelled by `natToF32`. -/
def lineSeedY (x1 y1 x2 y2 : Nat) : Nat :=
  if fgtZero (fdiv ((natToF32 y2 : ℚ) - (natToF32 y1 : ℚ))
      ((natToF32 x2 : ℚ) - (natToF32 x1 : ℚ))) = true then
    min y1 y2
  else max y1 y2

/-- The row rasterized by `Screen::line` at the `k`-th column of the loop:
the seed (cast to `f32` by `natToF32`) plus `k` slope increments, rounded
by `y.round() as u32`. -/
def lineRasterY (x1 y1 x2 y2 : Nat) (k : Nat) : Nat :=
  froundU32 (faddIter (Fl.fin ((natToF32 (lineSeedY x1 y1 x2 y2) : ℚ)))
    (fdiv ((natToF32 y2 : ℚ) - (natToF32 y1 : ℚ))
      ((natToF32 x2 : ℚ) - (natToF32 x1 : ℚ))) k)

/-- Embeds `Screen::line`: a no-op unless stroke is set; otherwise the
slope-stepping loop from `min(x1,x2)` to `max(x1,x2)` inclusive, with the
`u32 as f32` casts of the slope operands and of the seed modelled by
`natToF32`. -/
def line (s : Screen) (x1 y1 x2 y2 : Nat) : Screen :=
  if s.stroke = true then
    writeCells s
      (lineWritesAux (fdiv ((natToF32 y2 : ℚ) - (natToF32 y1 : ℚ))
          ((natToF32 x2 : ℚ) - (natToF32 x1 : ℚ)))
        s.stroke_value (min x1 x2)
        (Fl.fin ((natToF32 (lineSeedY x1 y1 x2 y2) : ℚ)))
        (max x1 x2 + 1 - min x1 x2))
  else s

/-- Embeds the swap body of `impl Shl<u32> for Screen`:
`temp = self[(x+v, y)]; self[(x+v, y)] = self[(x, y)]; self[(x, y)] = temp`. -/
def swapStep (u : Screen) (x y v : Nat) : Screen :=
  let temp := cellD u (x + v) y
  let u1 := setCell u (x + v) y (cellD u x y)
  setCell u1 x y temp

/-- The inner `for y in 0..self.height` loop of `Shl`, swapping column `x`
with column `x + v` on the first `k` rows. -/
def shlInner (t : Screen) (x v k : Nat) : Screen :=
  (List.range k).foldl (fun u y => swapStep u x y v) t

/-- The outer `for x in 0..(self.width - value)` loop of `Shl`, truncated to
its first `m` iterations. -/
def shlOuter (s : Screen) (v m : Nat) : Screen :=
  (List.range m).foldl (fun t x => shlInner t x v t.height) s

/-- Embeds `impl Shl<u32> for Screen` (`screen << value`). -/
def shl (s : Screen) (v : Nat) : Screen :=
  shlOuter s v (s.width - v)

/-- A 2-by-1 screen holding `ab` (concrete instance for `shl`). -/
def sampleAB : Screen := ⟨2, 1, ['a', 'b'], ' ', false, false, ' '⟩

/-- A 3-by-3 screen of dots, no fill or stroke set. -/
def sampleGrid3 : Screen := ⟨3, 3, List.replicate 9 '.', ' ', false, false, ' '⟩

/-- A 5-by-5 screen of dashes with fill `#` and stroke `*` enabled. -/
def sampleCanvas5 : Screen := ⟨5, 5, List.replicate 25 '-', '#', true, true, '*'⟩

/-- A 7-by-7 screen of dots with fill `#` and stroke `o` enabled. -/
def sampleCircle7 : Screen := ⟨7, 7, List.replicate 49 '.', '#', true, true, 'o'⟩

/-- A 4-by-5 screen of dots with only stroke `*` enabled. -/
def sampleLine45 : Screen := ⟨4, 5, List.replicate 20 '.', ' ', false, true, '*'⟩

/-- A 1-by-(2^24 + 2) blank screen with only stroke `*` enabled: tall
enough that row `2^24 + 1`, which is not exactly representable in `f32`,
is in bounds. -/
def tallVert : Screen :=
  ⟨1, 2 ^ 24 + 2, List.replicate (2 ^ 24 + 2) ' ', ' ', false, true, '*'⟩

theorem mem_natRange {x a b : Nat} : x ∈ natRange a b ↔ a ≤ x ∧ x < b := by
  simp only [natRange, List.mem_map, List.mem_range]
  constructor
  · rintro ⟨k, hk, rfl⟩
    omega
  · rintro ⟨h1, h2⟩
    exact ⟨x - a, by omega, by omega⟩

theorem rowMajor_lt {w h x y : Nat} (hx : x < w) (hy : y < h) :
    y * w + x < w * h := by
  have h2 : (y + 1) * w ≤ h * w := Nat.mul_le_mul_right w hy
  have he : (y + 1) * w = y * w + w := by ring
  have h3 : h * w = w * h := Nat.mul_comm h w
  omega

theorem rowMajor_inj {w x1 y1 x2 y2 : Nat} (h1 : x1 < w) (h2 : x2 < w)
    (h : y1 * w + x1 = y2 * w + x2) : x1 = x2 ∧ y1 = y2 := by
  rcases Nat.lt_trichotomy y1 y2 with hy | hy | hy
  · exfalso
    have hs : y1 + 1 ≤ y2 := hy
    have hm : (y1 + 1) * w ≤ y2 * w := Nat.mul_le_mul_right w hs
    have he : (y1 + 1) * w = y1 * w + w := by ring
    omega
  · subst hy
    omega
  · exfalso
    have hs : y2 + 1 ≤ y1 := hy
    have hm : (y2 + 1) * w ≤ y1 * w := Nat.mul_le_mul_right w hs
    have he : (y2 + 1) * w = y2 * w + w := by ring
    omega

@[simp] theorem setCell_width (s : Screen) (a b : Nat) (c : Char) :
    (setCell s a b c).width = s.width := by
  unfold setCell; split <;> rfl

@[simp] theorem setCell_height (s : Screen) (a b : Nat) (c : Char) :
    (setCell s a b c).height = s.height := by
  unfold setCell; split <;> rfl

@[simp] theorem setCell_buffer_length (s : Screen) (a b : Nat) (c : Char) :
    (setCell s a b c).buffer.length = s.buffer.length := by
  unfold setCell; split <;> simp

@[simp] theorem setCell_fill (s : Screen) (a b : Nat) (c : Char) :
    (setCell s a b c).fill = s.fill := by
  unfold setCell; split <;> rfl

@[simp] theorem setCell_fill_value (s : Screen) (a b : Nat) (c : Char) :
    (setCell s a b c).fill_value = s.fill_value := by
  unfold setCell; split <;> rfl

@[simp] theorem setCell_stroke (s : Screen) (a b : Nat) (c : Char) :
    (setCell s a b c).stroke = s.stroke := by
  unfold setCell; split <;> rfl

@[simp] theorem setCell_stroke_value (s : Screen) (a b : Nat) (c : Char) :
    (setCell s a b c).stroke_value = s.stroke_value := by
  unfold setCell; split <;> rfl

theorem getCell?_setCell (s : Screen) (a b : Nat) (c : Char) (x y : Nat)
    (hlen : s.buffer.length = s.width * s.height) :
    getCell? (setCell s a b c) x y =
      if a = x ∧ b = y ∧ x < s.width ∧ y < s.height then some c
      else getCell? s x y := by
  by_cases hg : a < s.width ∧ b < s.height
  · have hb : (setCell s a b c).buffer = s.buffer.set (b * s.width + a) c := by
      unfold setCell
      rw [if_pos hg]
    unfold getCell?
    rw [setCell_width, setCell_height, hb]
    by_cases hxy : s.width ≤ x ∨ s.height ≤ y
    · rw [if_pos hxy, if_neg (by omega), if_pos hxy]
    · rw [if_neg hxy, if_neg hxy]
      by_cases he : a = x ∧ b = y
      · obtain ⟨rfl, rfl⟩ := he
        rw [if_pos ⟨rfl, rfl, by omega, by omega⟩]
        exact List.getElem?_set_self (by rw [hlen]; exact rowMajor_lt (by omega) (by omega))
      · rw [if_neg (by rintro ⟨h1, h2, _, _⟩; exact he ⟨h1, h2⟩)]
        have hne : b * s.width + a ≠ y * s.width + x := by
          intro hcontra
          rcases rowMajor_inj hg.1 (by omega) hcontra with ⟨hh1, hh2⟩
          exact he ⟨hh1, hh2⟩
        exact List.getElem?_set_ne hne
  · have hb : setCell s a b c = s := by
      unfold setCell
      rw [if_neg hg]
    rw [hb, if_neg (by rintro ⟨rfl, rfl, h3, h4⟩; exact hg ⟨h3, h4⟩)]

@[simp] theorem writeCells_width (s : Screen) (ws : List (Nat × Nat × Char)) :
    (writeCells s ws).width = s.width := by
  induction ws generalizing s with
  | nil => rfl
  | cons w ws ih => rw [writeCells, List.foldl_cons, ← writeCells, ih, setCell_width]

@[simp] theorem writeCells_height (s : Screen) (ws : List (Nat × Nat × Char)) :
    (writeCells s ws).height = s.height := by
  induction ws generalizing s with
  | nil => rfl
  | cons w ws ih => rw [writeCells, List.foldl_cons, ← writeCells, ih, setCell_height]

@[simp] theorem writeCells_buffer_length (s : Screen) (ws : List (Nat × Nat × Char)) :
    (writeCells s ws).buffer.length = s.buffer.length := by
  induction ws generalizing s with
  | nil => rfl
  | cons w ws ih =>
      rw [writeCells, List.foldl_cons, ← writeCells, ih, setCell_buffer_length]

@[simp] theorem writeCells_fill (s : Screen) (ws : List (Nat × Nat × Char)) :
    (writeCells s ws).fill = s.fill := by
  induction ws generalizing s with
  | nil => rfl
  | cons w ws ih => rw [writeCells, List.foldl_cons, ← writeCells, ih, setCell_fill]

@[simp] theorem writeCells_fill_value (s : Screen) (ws : List (Nat × Nat × Char)) :
    (writeCells s ws).fill_value = s.fill_value := by
  induction ws generalizing s with
  | nil => rfl
  | cons w ws ih => rw [writeCells, List.foldl_cons, ← writeCells, ih, setCell_fill_value]

@[simp] theorem writeCells_stroke (s : Screen) (ws : List (Nat × Nat × Char)) :
    (writeCells s ws).stroke = s.stroke := by
  induction ws generalizing s with
  | nil => rfl
  | cons w ws ih => rw [writeCells, List.foldl_cons, ← writeCells, ih, setCell_stroke]

@[simp] theorem writeCells_stroke_value (s : Screen) (ws : List (Nat × Nat × Char)) :
    (writeCells s ws).stroke_value = s.stroke_value := by
  induction ws generalizing s with
  | nil => rfl
  | cons w ws ih =>
      rw [writeCells, List.foldl_cons, ← writeCells, ih, setCell_stroke_value]

theorem overlay_none_right (o : Option Char) : overlay o none = o := by
  cases o <;> rfl

theorem overlay_assoc (o p q : Option Char) :
    overlay (overlay o p) q = overlay o (overlay p q) := by
  cases o <;> rfl

theorem lastVal_append (l1 l2 : List (Nat × Nat × Char)) (x y : Nat) :
    lastVal (l1 ++ l2) x y = overlay (lastVal l2 x y) (lastVal l1 x y) := by
  induction l1 with
  | nil => rw [List.nil_append, lastVal, overlay_none_right]
  | cons w l1 ih =>
      rw [List.cons_append, lastVal, lastVal, ih, overlay_assoc]

theorem getCell?_oob (s : Screen) (x y : Nat) (h : s.width ≤ x ∨ s.height ≤ y) :
    getCell? s x y = none := by
  unfold getCell?
  rw [if_pos h]

theorem getCell?_writeCells (s : Screen) (ws : List (Nat × Nat × Char)) (x y : Nat)
    (hlen : s.buffer.length = s.width * s.height)
    (hx : x < s.width) (hy : y < s.height) :
    getCell? (writeCells s ws) x y = overlay (lastVal ws x y) (getCell? s x y) := by
  induction ws generalizing s with
  | nil => rfl
  | cons w ws ih =>
      rw [writeCells, List.foldl_cons, ← writeCells, lastVal]
      have hlen2 : (setCell s w.1 w.2.1 w.2.2).buffer.length =
          (setCell s w.1 w.2.1 w.2.2).width * (setCell s w.1 w.2.1 w.2.2).height := by
        rw [setCell_buffer_length, setCell_width, setCell_height]
        exact hlen
      rw [ih (setCell s w.1 w.2.1 w.2.2) hlen2 (by rw [setCell_width]; exact hx)
        (by rw [setCell_height]; exact hy)]
      rw [getCell?_setCell s w.1 w.2.1 w.2.2 x y hlen]
      cases hcase : lastVal ws x y with
      | some c => rfl
      | none =>
          by_cases ht : w.1 = x ∧ w.2.1 = y
          · rw [if_pos ht, if_pos ⟨ht.1, ht.2, hx, hy⟩]
            rfl
          · rw [if_neg ht, if_neg (by rintro ⟨h1, h2, _, _⟩; exact ht ⟨h1, h2⟩)]
            rfl

theorem getCell?_writeCells_none (s : Screen) (ws : List (Nat × Nat × Char)) (x y : Nat)
    (hlen : s.buffer.length = s.width * s.height)
    (h : lastVal ws x y = none) :
    getCell? (writeCells s ws) x y = getCell? s x y := by
  by_cases hb : x < s.width ∧ y < s.height
  · rw [getCell?_writeCells s ws x y hlen hb.1 hb.2, h, overlay]
  · rw [getCell?_oob s x y (by omega),
      getCell?_oob (writeCells s ws) x y
        (by rw [writeCells_width, writeCells_height]; omega)]

theorem getCell?_writeCells_some (s : Screen) (ws : List (Nat × Nat × Char)) (x y : Nat)
    (c : Char) (hlen : s.buffer.length = s.width * s.height)
    (hx : x < s.width) (hy : y < s.height)
    (h : lastVal ws x y = some c) :
    getCell? (writeCells s ws) x y = some c := by
  rw [getCell?_writeCells s ws x y hlen hx hy, h, overlay]

theorem lastVal_eq_none (ws : List (Nat × Nat × Char)) (x y : Nat)
    (h : ∀ w ∈ ws, ¬(w.1 = x ∧ w.2.1 = y)) :
    lastVal ws x y = none := by
  induction ws with
  | nil => rfl
  | cons w ws ih =>
      rw [lastVal, ih (fun e he => h e (List.mem_cons_of_mem w he)),
        if_neg (h w (List.mem_cons_self w ws)), overlay]

theorem lastVal_eq_some (ws : List (Nat × Nat × Char)) (x y : Nat) (c : Char)
    (hall : ∀ w ∈ ws, w.1 = x → w.2.1 = y → w.2.2 = c)
    (hex : ∃ w ∈ ws, w.1 = x ∧ w.2.1 = y) :
    lastVal ws x y = some c := by
  induction ws with
  | nil => exact absurd hex (by simp)
  | cons w ws ih =>
      rw [lastVal]
      by_cases htail : ∃ e ∈ ws, e.1 = x ∧ e.2.1 = y
      · rw [ih (fun e he => hall e (List.mem_cons.mpr (Or.inr he))) htail, overlay]
      · have hnone : lastVal ws x y = none := by
          apply lastVal_eq_none
          intro e he hc
          exact htail ⟨e, he, hc⟩
        rw [hnone]
        have hw : w.1 = x ∧ w.2.1 = y := by
          rcases hex with ⟨e, he, hc⟩
          rcases List.mem_cons.mp he with rfl | hmem
          · exact hc
          · exact absurd ⟨e, hmem, hc⟩ htail
        rw [if_pos hw, overlay,
          hall w (List.mem_cons.mpr (Or.inl rfl)) hw.1 hw.2]

theorem mem_outlineWrites {e : Nat × Nat × Char} {wd ht : Nat} {t b l r : Char} :
    e ∈ outlineWrites wd ht t b l r ↔
      (∃ x, x < wd ∧ (e = (x, 0, t) ∨ e = (x, ht - 1, b))) ∨
      (∃ y, y < ht ∧ (e = (0, y, l) ∨ e = (wd - 1, y, r))) := by
  simp [outlineWrites, List.mem_append, List.mem_flatMap, List.mem_range]

theorem mem_textWrites {e : Nat × Nat × Char} (cs : List Char) (i wd y : Nat) :
    e ∈ textWrites cs i wd y ↔
      ∃ k c, cs[k]? = some c ∧ i + k < wd ∧ e = (i + k, y, c) := by
  induction cs generalizing i with
  | nil => simp [textWrites]
  | cons c rest ih =>
      rw [textWrites]
      by_cases hi : i < wd
      · rw [if_pos hi]
        simp only [List.mem_cons, ih]
        constructor
        · rintro (rfl | ⟨k, cc, hk, hw, rfl⟩)
          · exact ⟨0, c, by simp, by omega, by simp⟩
          · refine ⟨k + 1, cc, by simpa using hk, by omega, ?_⟩
            have hs : i + (k + 1) = (i + 1) + k := by omega
            rw [hs]
        · rintro ⟨k, cc, hk, hw, rfl⟩
          cases k with
          | zero =>
              left
              simp only [List.getElem?_cons_zero, Option.some_inj] at hk
              rw [hk]
              simp
          | succ k =>
              right
              refine ⟨k, cc, by simpa using hk, by omega, ?_⟩
              have hs : i + (k + 1) = (i + 1) + k := by omega
              rw [hs]
      · rw [if_neg hi]
        simp only [List.not_mem_nil, false_iff]
        rintro ⟨k, cc, hk, hw, rfl⟩
        omega

theorem mem_boxWrites {e : Nat × Nat × Char} {a b c d : Nat} {v : Char} :
    e ∈ ((natRange a b).flatMap fun i => (natRange c d).map fun j => (i, j, v)) ↔
      ∃ i j, a ≤ i ∧ i < b ∧ c ≤ j ∧ j < d ∧ e = (i, j, v) := by
  simp only [List.mem_flatMap, List.mem_map, mem_natRange]
  constructor
  · rintro ⟨i, ⟨h1, h2⟩, j, ⟨h3, h4⟩, rfl⟩
    exact ⟨i, j, h1, h2, h3, h4, rfl⟩
  · rintro ⟨i, j, h1, h2, h3, h4, rfl⟩
    exact ⟨i, ⟨h1, h2⟩, j, ⟨h3, h4⟩, rfl⟩

theorem mem_rowPairWrites {e : Nat × Nat × Char} {a b j1 j2 : Nat} {v : Char} :
    e ∈ ((natRange a b).flatMap fun i => [(i, j1, v), (i, j2, v)]) ↔
      ∃ i, a ≤ i ∧ i < b ∧ (e = (i, j1, v) ∨ e = (i, j2, v)) := by
  simp only [List.mem_flatMap, mem_natRange, List.mem_cons, List.not_mem_nil, or_false]
  constructor
  · rintro ⟨i, ⟨h1, h2⟩, h⟩
    exact ⟨i, h1, h2, h⟩
  · rintro ⟨i, h1, h2, h⟩
    exact ⟨i, ⟨h1, h2⟩, h⟩

theorem mem_colPairWrites {e : Nat × Nat × Char} {c d i1 i2 : Nat} {v : Char} :
    e ∈ ((natRange c d).flatMap fun j => [(i1, j, v), (i2, j, v)]) ↔
      ∃ j, c ≤ j ∧ j < d ∧ (e = (i1, j, v) ∨ e = (i2, j, v)) := by
  simp only [List.mem_flatMap, mem_natRange, List.mem_cons, List.not_mem_nil, or_false]
  constructor
  · rintro ⟨j, ⟨h1, h2⟩, h⟩
    exact ⟨j, h1, h2, h⟩
  · rintro ⟨j, h1, h2, h⟩
    exact ⟨j, ⟨h1, h2⟩, h⟩

theorem mem_circleWrites {e : Nat × Nat × Char} {s : Screen} {x y radius : Nat} :
    e ∈ circleWrites s x y radius ↔
      ∃ i j, (x - radius ≤ i ∧ i < x + radius + 1) ∧
        (y - radius ≤ j ∧ j < y + radius + 1) ∧
        e ∈ (if sqDist x y i j < (radius : Int) * (radius : Int) ∧ s.fill = true then
              [(i, j, s.fill_value)]
            else if (sqDist x y i j = (radius : Int) * (radius : Int) ∨
                sqDist x y i j = (radius : Int) * (radius : Int) + 1) ∧ s.stroke = true then
              [(i, j, s.stroke_value)]
            else []) := by
  simp only [circleWrites, List.mem_flatMap, mem_natRange]
  constructor
  · rintro ⟨i, ⟨h1, h2⟩, j, ⟨h3, h4⟩, h⟩
    exact ⟨i, j, ⟨h1, h2⟩, ⟨h3, h4⟩, h⟩
  · rintro ⟨i, j, ⟨h1, h2⟩, ⟨h3, h4⟩, h⟩
    exact ⟨i, ⟨h1, h2⟩, j, ⟨h3, h4⟩, h⟩

theorem mem_lineWritesAux {e : Nat × Nat × Char} (slope : Fl) (v : Char)
    (x : Nat) (yv : Fl) (n : Nat) :
    e ∈ lineWritesAux slope v x yv n ↔
      ∃ k, k < n ∧ e = (x + k, froundU32 (faddIter yv slope k), v) := by
  induction n generalizing x yv with
  | zero => simp [lineWritesAux]
  | succ n ih =>
      rw [lineWritesAux]
      simp only [List.mem_cons, ih]
      constructor
      · rintro (rfl | ⟨k, hk, rfl⟩)
        · exact ⟨0, by omega, by rw [faddIter, Nat.add_zero]⟩
        · refine ⟨k + 1, by omega, ?_⟩
          have hs : x + (k + 1) = (x + 1) + k := by omega
          rw [hs, faddIter]
      · rintro ⟨k, hk, rfl⟩
        cases k with
        | zero =>
            left
            rw [faddIter, Nat.add_zero]
        | succ k =>
            right
            refine ⟨k, by omega, ?_⟩
            have hs : x + (k + 1) = (x + 1) + k := by omega
            rw [hs, faddIter]

theorem screenExt {s t : Screen} (h1 : s.width = t.width) (h2 : s.height = t.height)
    (h3 : s.buffer = t.buffer) (h4 : s.fill_value = t.fill_value)
    (h5 : s.fill = t.fill) (h6 : s.stroke = t.stroke)
    (h7 : s.stroke_value = t.stroke_value) : s = t := by
  cases s
  cases t
  simp_all

theorem buffer_getElem?_eq_getCell? (s : Screen) (i : Nat)
    (hw : 0 < s.width) (hi : i < s.width * s.height) :
    s.buffer[i]? = getCell? s (i % s.width) (i / s.width) := by
  have hx : i % s.width < s.width := Nat.mod_lt i hw
  have hy : i / s.width < s.height := by
    rw [Nat.div_lt_iff_lt_mul hw]
    have := Nat.mul_comm s.width s.height
    omega
  unfold getCell?
  rw [if_neg (by omega)]
  have hdm : i / s.width * s.width + i % s.width = i := Nat.div_add_mod' i s.width
  rw [hdm]

theorem writeCells_eq_of_cells (s : Screen) (l1 l2 : List (Nat × Nat × Char))
    (hlen : s.buffer.length = s.width * s.height)
    (h : ∀ x y, x < s.width → y < s.height →
      getCell? (writeCells s l1) x y = getCell? (writeCells s l2) x y) :
    writeCells s l1 = writeCells s l2 := by
  apply screenExt (by simp) (by simp) ?_ (by simp) (by simp) (by simp) (by simp)
  apply List.ext_getElem?
  intro i
  by_cases hi : i < s.width * s.height
  · have hw : 0 < s.width := by
      rcases Nat.eq_zero_or_pos s.width with h0 | h0
      · rw [h0] at hi
        omega
      · exact h0
    have e1 := buffer_getElem?_eq_getCell? (writeCells s l1) i
      (by rw [writeCells_width]; exact hw)
      (by rw [writeCells_width, writeCells_height]; exact hi)
    have e2 := buffer_getElem?_eq_getCell? (writeCells s l2) i
      (by rw [writeCells_width]; exact hw)
      (by rw [writeCells_width, writeCells_height]; exact hi)
    rw [writeCells_width] at e1 e2
    rw [e1, e2]
    exact h (i % s.width) (i / s.width) (Nat.mod_lt i hw)
      (by rw [Nat.div_lt_iff_lt_mul hw]; have := Nat.mul_comm s.width s.height; omega)
  · rw [List.getElem?_eq_none (by rw [writeCells_buffer_length, hlen]; omega),
      List.getElem?_eq_none (by rw [writeCells_buffer_length, hlen]; omega)]

theorem fadd_fin (a b : ℚ) : fadd (Fl.fin a) (Fl.fin b) = Fl.fin (a + b) := rfl

theorem faddIter_fin (a b : ℚ) (k : Nat) :
    faddIter (Fl.fin a) (Fl.fin b) k = Fl.fin (a + k * b) := by
  induction k generalizing a with
  | zero => rw [faddIter]; norm_num
  | succ k ih =>
      rw [faddIter, fadd_fin, ih]
      congr 1
      push_cast
      ring

theorem froundU32_fin (q : ℚ) :
    froundU32 (Fl.fin q) = if q ≤ 0 then 0 else min (Int.toNat ⌊q + 1 / 2⌋) (2 ^ 32 - 1) :=
  rfl

theorem froundU32_natCast (n : Nat) (hn : n < 2 ^ 32) :
    froundU32 (Fl.fin ((n : Nat) : ℚ)) = n := by
  rw [froundU32_fin]
  rcases Nat.eq_zero_or_pos n with rfl | hpos
  · rw [if_pos (by norm_num)]
  · have hq : ¬((n : ℚ) ≤ 0) := by
      push_neg
      exact_mod_cast hpos
    rw [if_neg hq]
    have hfl : ⌊(n : ℚ) + 1 / 2⌋ = (n : Int) := by
      rw [Int.floor_eq_iff]
      constructor
      · push_cast
        linarith
      · push_cast
        linarith
    rw [hfl, Int.toNat_natCast]
    exact Nat.min_eq_left (by omega)

theorem fdiv_zero_pos (a : ℚ) (h : 0 < a) : fdiv a 0 = Fl.pinf := by
  unfold fdiv
  rw [if_neg (by simp), if_pos h]

theorem fdiv_zero_neg (a : ℚ) (h : a < 0) : fdiv a 0 = Fl.ninf := by
  unfold fdiv
  rw [if_neg (by simp), if_neg (by linarith), if_pos h]

theorem fdiv_zero_zero : fdiv 0 0 = Fl.nan := by
  unfold fdiv
  rw [if_neg (by simp), if_neg (by norm_num), if_neg (by norm_num)]

theorem fdiv_ne (a b : ℚ) (h : b ≠ 0) : fdiv a b = Fl.fin (a / b) := by
  unfold fdiv
  rw [if_pos h]

theorem f32ulp_small (n : Nat) (h : n < 2 ^ 24) : f32ulp n = 1 := by
  unfold f32ulp
  rw [if_pos h]

theorem natToF32_small (n : Nat) (h : n < 2 ^ 24) : natToF32 n = n := by
  unfold natToF32
  rw [f32ulp_small n h]
  simp [Nat.mod_one]

theorem natToF32_big (n : Nat) (h : 2 ^ 24 ≤ n) : 2 ^ 24 ≤ natToF32 n := by
  have hq : 2 ^ 24 ≤ n / f32ulp n * f32ulp n := by
    unfold f32ulp
    split_ifs <;> omega
  have hstep : (n / f32ulp n + 1) * f32ulp n = n / f32ulp n * f32ulp n + f32ulp n := by
    ring
  unfold natToF32
  split_ifs <;> omega

theorem lineSeedY_vertical_small (x1 y1 y2 : Nat) (hb : y1 < 2 ^ 24) :
    natToF32 (lineSeedY x1 y1 x1 y2) = y1 := by
  have h1 : natToF32 y1 = y1 := natToF32_small y1 hb
  unfold lineSeedY
  rw [sub_self]
  by_cases h2 : y2 < 2 ^ 24
  · have h2' : natToF32 y2 = y2 := natToF32_small y2 h2
    rw [h1, h2']
    rcases Nat.lt_trichotomy y1 y2 with h | h | h
    · rw [fdiv_zero_pos _ (by have hc : (y1 : ℚ) < (y2 : ℚ) := Nat.cast_lt.mpr h; linarith),
        show fgtZero Fl.pinf = true from rfl, if_pos rfl,
        Nat.min_eq_left (Nat.le_of_lt h), h1]
    · subst h
      rw [sub_self, fdiv_zero_zero, show fgtZero Fl.nan = false from rfl,
        if_neg (by simp), Nat.max_self, h1]
    · rw [fdiv_zero_neg _ (by have hc : (y2 : ℚ) < (y1 : ℚ) := Nat.cast_lt.mpr h; linarith),
        show fgtZero Fl.ninf = false from rfl, if_neg (by simp),
        Nat.max_eq_left (Nat.le_of_lt h), h1]
  · have hge : 2 ^ 24 ≤ natToF32 y2 := natToF32_big y2 (by omega)
    have hlt : natToF32 y1 < natToF32 y2 := by omega
    have hc : ((natToF32 y1 : Nat) : ℚ) < ((natToF32 y2 : Nat) : ℚ) := Nat.cast_lt.mpr hlt
    rw [fdiv_zero_pos _ (by linarith), show fgtZero Fl.pinf = true from rfl, if_pos rfl,
      Nat.min_eq_left (by omega), h1]

@[simp] theorem swapStep_width (u : Screen) (x y v : Nat) :
    (swapStep u x y v).width = u.width := by
  unfold swapStep
  simp

@[simp] theorem swapStep_height (u : Screen) (x y v : Nat) :
    (swapStep u x y v).height = u.height := by
  unfold swapStep
  simp

@[simp] theorem swapStep_buffer_length (u : Screen) (x y v : Nat) :
    (swapStep u x y v).buffer.length = u.buffer.length := by
  unfold swapStep
  simp

theorem shlInner_zero (t : Screen) (x v : Nat) : shlInner t x v 0 = t := rfl

theorem shlInner_succ (t : Screen) (x v k : Nat) :
    shlInner t x v (k + 1) = swapStep (shlInner t x v k) x k v := by
  unfold shlInner
  rw [List.range_succ, List.foldl_append, List.foldl_cons, List.foldl_nil]

@[simp] theorem shlInner_width (t : Screen) (x v k : Nat) :
    (shlInner t x v k).width = t.width := by
  induction k with
  | zero => rfl
  | succ k ih => rw [shlInner_succ, swapStep_width, ih]

@[simp] theorem shlInner_height (t : Screen) (x v k : Nat) :
    (shlInner t x v k).height = t.height := by
  induction k with
  | zero => rfl
  | succ k ih => rw [shlInner_succ, swapStep_height, ih]

@[simp] theorem shlInner_buffer_length (t : Screen) (x v k : Nat) :
    (shlInner t x v k).buffer.length = t.buffer.length := by
  induction k with
  | zero => rfl
  | succ k ih => rw [shlInner_succ, swapStep_buffer_length, ih]

theorem shlOuter_succ (s : Screen) (v m : Nat) :
    shlOuter s v (m + 1) = shlInner (shlOuter s v m) m v (shlOuter s v m).height := by
  unfold shlOuter
  rw [List.range_succ, List.foldl_append, List.foldl_cons, List.foldl_nil]

@[simp] theorem shlOuter_width (s : Screen) (v m : Nat) :
    (shlOuter s v m).width = s.width := by
  induction m with
  | zero => rfl
  | succ m ih => rw [shlOuter_succ, shlInner_width, ih]

@[simp] theorem shlOuter_height (s : Screen) (v m : Nat) :
    (shlOuter s v m).height = s.height := by
  induction m with
  | zero => rfl
  | succ m ih => rw [shlOuter_succ, shlInner_height, ih]

@[simp] theorem shlOuter_buffer_length (s : Screen) (v m : Nat) :
    (shlOuter s v m).buffer.length = s.buffer.length := by
  induction m with
  | zero => rfl
  | succ m ih => rw [shlOuter_succ, shlInner_buffer_length, ih]

theorem getCell?_eq_cellD (s : Screen) (x y : Nat)
    (hlen : s.buffer.length = s.width * s.height)
    (hx : x < s.width) (hy : y < s.height) :
    getCell? s x y = some (cellD s x y) := by
  have hi : y * s.width + x < s.buffer.length := by
    rw [hlen]
    exact rowMajor_lt hx hy
  unfold getCell? cellD
  rw [if_neg (by omega), List.getD_eq_getElem?_getD, List.getElem?_eq_getElem hi]
  rfl

theorem getCell?_swapStep (u : Screen) (x y v a b : Nat)
    (hlen : u.buffer.length = u.width * u.height)
    (hx : x + v < u.width) :
    getCell? (swapStep u x y v) a b =
      if a = x + v ∧ b = y ∧ y < u.height then getCell? u x y
      else if a = x ∧ b = y ∧ y < u.height then getCell? u (x + v) y
      else getCell? u a b := by
  by_cases hy : y < u.height
  · unfold swapStep
    rw [getCell?_setCell (setCell u (x + v) y (cellD u x y)) x y (cellD u (x + v) y) a b
      (by rw [setCell_buffer_length, setCell_width, setCell_height]; exact hlen)]
    rw [setCell_width, setCell_height]
    by_cases h2 : x = a ∧ y = b ∧ a < u.width ∧ b < u.height
    · obtain ⟨rfl, rfl, h3, h4⟩ := h2
      rw [if_pos ⟨rfl, rfl, h3, h4⟩,
        ← getCell?_eq_cellD u (x + v) y hlen hx hy]
      by_cases hv : v = 0
      · subst hv
        rw [if_pos ⟨by omega, rfl, hy⟩, Nat.add_zero]
      · rw [if_neg (by omega), if_pos ⟨rfl, rfl, hy⟩]
    · rw [if_neg h2, getCell?_setCell u (x + v) y (cellD u x y) a b hlen]
      by_cases h1 : x + v = a ∧ y = b ∧ a < u.width ∧ b < u.height
      · obtain ⟨rfl, rfl, h3, h4⟩ := h1
        rw [← getCell?_eq_cellD u x y hlen (by omega) hy,
          if_pos ⟨rfl, rfl, by omega, hy⟩, if_pos ⟨rfl, rfl, hy⟩]
      · rw [if_neg h1, if_neg (by omega), if_neg (by omega)]
  · have h1 : setCell u (x + v) y (cellD u x y) = u := by
      unfold setCell
      rw [if_neg (by omega)]
    have hstep : swapStep u x y v = u := by
      unfold swapStep
      rw [h1]
      unfold setCell
      rw [if_neg (by omega)]
    rw [hstep, if_neg (by omega), if_neg (by omega)]

theorem getCell?_shlInner (u : Screen) (x v : Nat)
    (hlen : u.buffer.length = u.width * u.height)
    (hx : x + v < u.width) :
    ∀ k a b, getCell? (shlInner u x v k) a b =
      if a = x + v ∧ b < k ∧ b < u.height then getCell? u x b
      else if a = x ∧ b < k ∧ b < u.height then getCell? u (x + v) b
      else getCell? u a b := by
  intro k
  induction k with
  | zero =>
      intro a b
      rw [shlInner_zero, if_neg (by omega), if_neg (by omega)]
  | succ k ih =>
      intro a b
      rw [shlInner_succ,
        getCell?_swapStep (shlInner u x v k) x k v a b (by simp [hlen]) (by simp [hx]),
        shlInner_height]
      by_cases hc1 : a = x + v ∧ b = k ∧ k < u.height
      · rw [if_pos hc1, ih x k, if_neg (by omega), if_neg (by omega),
          if_pos ⟨hc1.1, by omega, by omega⟩, hc1.2.1]
      · rw [if_neg hc1]
        by_cases hc2 : a = x ∧ b = k ∧ k < u.height
        · rw [if_pos hc2, ih (x + v) k, if_neg (by omega), if_neg (by omega),
            if_neg (by omega), if_pos ⟨hc2.1, by omega, by omega⟩, hc2.2.1]
        · rw [if_neg hc2, ih a b]
          by_cases hd1 : a = x + v ∧ b < k ∧ b < u.height
          · rw [if_pos hd1, if_pos ⟨hd1.1, by omega, hd1.2.2⟩]
          · rw [if_neg hd1]
            by_cases hd2 : a = x ∧ b < k ∧ b < u.height
            · rw [if_pos hd2, if_neg (by omega), if_pos ⟨hd2.1, by omega, hd2.2.2⟩]
            · rw [if_neg hd2, if_neg (by omega), if_neg (by omega)]

theorem getCell?_shlOuter_zero (s : Screen)
    (hlen : s.buffer.length = s.width * s.height) :
    ∀ m, m ≤ s.width → ∀ a b, getCell? (shlOuter s 0 m) a b = getCell? s a b := by
  intro m
  induction m with
  | zero => intro _ a b; rfl
  | succ m ih =>
      intro hm a b
      rw [shlOuter_succ,
        getCell?_shlInner (shlOuter s 0 m) m 0 (by simp [hlen])
          (by rw [shlOuter_width]; omega) (shlOuter s 0 m).height a b,
        shlOuter_height]
      by_cases hc1 : a = m + 0 ∧ b < s.height ∧ b < s.height
      · rw [if_pos hc1, ih (by omega) m b, hc1.1]
        rfl
      · rw [if_neg hc1, if_neg (by omega), ih (by omega) a b]

theorem getCell?_shlOuter_pos (s : Screen) (v : Nat) (hv : 0 < v)
    (hlen : s.buffer.length = s.width * s.height) :
    ∀ m, m + v ≤ s.width → ∀ a b,
      getCell? (shlOuter s v m) a b =
        if a < m then getCell? s (a + v) b
        else if a < m + v then getCell? s (a % v) b
        else getCell? s a b := by
  intro m
  induction m with
  | zero =>
      intro hm a b
      rw [show shlOuter s v 0 = s from rfl, if_neg (by omega)]
      by_cases hav : a < v
      · rw [if_pos (by omega), Nat.mod_eq_of_lt hav]
      · rw [if_neg (by omega)]
  | succ m ih =>
      intro hm a b
      have hmw : m + v ≤ s.width := by omega
      rw [shlOuter_succ,
        getCell?_shlInner (shlOuter s v m) m v (by simp [hlen])
          (by rw [shlOuter_width]; omega) (shlOuter s v m).height a b,
        shlOuter_height]
      by_cases hb : b < s.height
      · by_cases hc1 : a = m + v
        · rw [if_pos ⟨hc1, hb, hb⟩, ih hmw m b, if_neg (by omega), if_pos (by omega),
            if_neg (by omega), if_pos (by omega), hc1, Nat.add_mod_right]
        · rw [if_neg (by omega)]
          by_cases hc2 : a = m
          · rw [if_pos ⟨hc2, hb, hb⟩, ih hmw (m + v) b, if_neg (by omega),
              if_neg (by omega), if_pos (by omega), hc2]
          · rw [if_neg (by omega), ih hmw a b]
            by_cases ha1 : a < m
            · rw [if_pos ha1, if_pos (by omega)]
            · by_cases ha2 : a < m + v
              · rw [if_neg ha1, if_pos ha2, if_neg (by omega), if_pos (by omega)]
              · rw [if_neg ha1, if_neg ha2, if_neg (by omega), if_neg (by omega)]
      · have hnone : ∀ z, getCell? s z b = none := fun z =>
          getCell?_oob s z b (Or.inr (by omega))
        rw [if_neg (by omega), if_neg (by omega), ih hmw a b]
        simp only [hnone, ite_self]

/-- C1 counterexample: on the 2-by-1 buffer `ab`, `shl 1` puts the wrapped
column-0 content `a` into trailing column 1 (an index `>= width - 1`), so
that column does not keep its prior content `b` — refuting the claim that
the trailing `n` columns retain their pre-shift content. -/
theorem C1_shl_trailing_counterexample :
    sampleAB.width - 1 ≤ 1 ∧
    getCell? sampleAB 1 0 = some 'b' ∧
    getCell? (shl sampleAB 1) 1 0 = some 'a' ∧
    getCell? (shl sampleAB 1) 1 0 ≠ getCell? sampleAB 1 0 := by
  decide

/-- C1 (amended): for `n <= width`, `shl n` moves each cell `n` columns left
within its row on the leading `width - n` columns (cell `x` receives the
prior content of column `x + n`), and each trailing column `x >= width - n`
receives the row's prior content of column `x % n` (the wrapped leading
block), not its own prior content; nothing is cleared. -/
theorem C1_shl_spec (s : Screen) (v : Nat)
    (hlen : s.buffer.length = s.width * s.height) (hv : v ≤ s.width)
    (x y : Nat) (hx : x < s.width) (hy : y < s.height) :
    getCell? (shl s v) x y =
      if x + v < s.width then getCell? s (x + v) y
      else getCell? s (x % v) y := by
  unfold shl
  rcases Nat.eq_zero_or_pos v with rfl | hvp
  · rw [getCell?_shlOuter_zero s hlen (s.width - 0) (by omega) x y, if_pos (by omega),
      Nat.add_zero]
  · rw [getCell?_shlOuter_pos s v hvp hlen (s.width - v) (by omega) x y]
    by_cases h1 : x < s.width - v
    · rw [if_pos h1, if_pos (by omega)]
    · rw [if_neg h1, if_pos (by omega), if_neg (by omega)]

/-- C1 witness: the amended statement instantiated on the 2-by-1 buffer
`ab` with `n = 1` at the trailing column. -/
theorem C1_shl_spec_witness :
    (sampleAB.buffer.length = sampleAB.width * sampleAB.height ∧
      1 ≤ sampleAB.width ∧ 1 < sampleAB.width ∧ 0 < sampleAB.height) ∧
    getCell? (shl sampleAB 1) 1 0 =
      if 1 + 1 < sampleAB.width then getCell? sampleAB (1 + 1) 0
      else getCell? sampleAB (1 % 1) 0 :=
  ⟨by decide, C1_shl_spec sampleAB 1 (by decide) (by decide) 1 0 (by decide) (by decide)⟩

/-- C8: the indexed read (`Index`) and write (`IndexMut`) fail (panic)
exactly when `x >= width` or `y >= height`; for in-bounds coordinates they
succeed and access the row-major cell `y * width + x`, with no wraparound
and no clamping. -/
theorem C8_index_bounds (s : Screen) (hw : 1 ≤ s.width) (hh : 1 ≤ s.height)
    (hlen : s.buffer.length = s.width * s.height) (x y : Nat) (c : Char) :
    (getCell? s x y = none ↔ (s.width ≤ x ∨ s.height ≤ y)) ∧
    (setCell? s x y c = none ↔ (s.width ≤ x ∨ s.height ≤ y)) ∧
    (x < s.width → y < s.height →
      getCell? s x y = s.buffer[y * s.width + x]? ∧
      setCell? s x y c = some { s with buffer := s.buffer.set (y * s.width + x) c }) := by
  refine ⟨⟨?_, getCell?_oob s x y⟩, ⟨?_, ?_⟩, ?_⟩
  · intro hnone
    by_contra hin
    push_neg at hin
    have hi : y * s.width + x < s.buffer.length := by
      rw [hlen]
      exact rowMajor_lt (by omega) (by omega)
    unfold getCell? at hnone
    rw [if_neg (by omega), List.getElem?_eq_getElem hi] at hnone
    exact Option.noConfusion hnone
  · intro hnone
    by_contra hin
    push_neg at hin
    unfold setCell? at hnone
    rw [if_neg (by omega),
      if_pos (by rw [hlen]; exact rowMajor_lt (by omega) (by omega))] at hnone
    exact Option.noConfusion hnone
  · intro h
    unfold setCell?
    rw [if_pos h]
  · intro hx hy
    constructor
    · unfold getCell?
      rw [if_neg (by omega)]
    · unfold setCell?
      rw [if_neg (by omega), if_pos (by rw [hlen]; exact rowMajor_lt hx hy)]

/-- C8 witness: the bounds contract instantiated on the 3-by-3 grid at the
in-bounds cell `(1, 2)` (and, via the iff, at out-of-bounds queries). -/
theorem C8_index_bounds_witness :
    (1 ≤ sampleGrid3.width ∧ 1 ≤ sampleGrid3.height ∧
      sampleGrid3.buffer.length = sampleGrid3.width * sampleGrid3.height) ∧
    ((getCell? sampleGrid3 1 2 = none ↔
        (sampleGrid3.width ≤ 1 ∨ sampleGrid3.height ≤ 2)) ∧
      (setCell? sampleGrid3 1 2 'z' = none ↔
        (sampleGrid3.width ≤ 1 ∨ sampleGrid3.height ≤ 2)) ∧
      (1 < sampleGrid3.width → 2 < sampleGrid3.height →
        getCell? sampleGrid3 1 2 = sampleGrid3.buffer[2 * sampleGrid3.width + 1]? ∧
        setCell? sampleGrid3 1 2 'z' =
          some { sampleGrid3 with
            buffer := sampleGrid3.buffer.set (2 * sampleGrid3.width + 1) 'z' })) :=
  ⟨by decide, C8_index_bounds sampleGrid3 (by decide) (by decide) (by decide) 1 2 'z'⟩

/-- C9: `no_fill` / `no_stroke` clear only the corresponding enabled flag —
the stored fill and stroke characters keep their last set values and the
buffer is untouched — and `set_fill` / `set_stroke` never mutate the buffer;
all four toggles are total. -/
theorem C9_toggles_state_only (s : Screen) (v : Char) :
    ((no_fill s).fill = false ∧ (no_fill s).fill_value = s.fill_value ∧
      (no_fill s).stroke = s.stroke ∧ (no_fill s).stroke_value = s.stroke_value ∧
      (no_fill s).buffer = s.buffer ∧ (no_fill s).width = s.width ∧
      (no_fill s).height = s.height) ∧
    ((no_stroke s).stroke = false ∧ (no_stroke s).stroke_value = s.stroke_value ∧
      (no_stroke s).fill = s.fill ∧ (no_stroke s).fill_value = s.fill_value ∧
      (no_stroke s).buffer = s.buffer ∧ (no_stroke s).width = s.width ∧
      (no_stroke s).height = s.height) ∧
    ((set_fill s v).buffer = s.buffer ∧ (set_fill s v).fill = true ∧
      (set_fill s v).fill_value = v ∧ (set_fill s v).stroke = s.stroke ∧
      (set_fill s v).stroke_value = s.stroke_value) ∧
    ((set_stroke s v).buffer = s.buffer ∧ (set_stroke s v).stroke = true ∧
      (set_stroke s v).stroke_value = v ∧ (set_stroke s v).fill = s.fill ∧
      (set_stroke s v).fill_value = s.fill_value) :=
  ⟨⟨rfl, rfl, rfl, rfl, rfl, rfl, rfl⟩, ⟨rfl, rfl, rfl, rfl, rfl, rfl, rfl⟩,
    ⟨rfl, rfl, rfl, rfl, rfl⟩, ⟨rfl, rfl, rfl, rfl, rfl⟩⟩

/-- C6: `soild_border` with character `c` produces exactly the same screen
state as `border` with a style whose five characters all equal `c` (the
extra corner writes of `border` rewrite cells the edge passes already set
to `c`). -/
theorem C6_soild_border_eq_border (s : Screen) (v : Char)
    (hlen : s.buffer.length = s.width * s.height) :
    soild_border s v = border s ⟨v, v, v, v, v⟩ := by
  unfold soild_border border
  apply writeCells_eq_of_cells s _ _ hlen
  intro x y hx hy
  rw [getCell?_writeCells s _ x y hlen hx hy, getCell?_writeCells s _ x y hlen hx hy,
    lastVal_append]
  have hallL : ∀ w ∈ outlineWrites s.width s.height v v v v,
      w.1 = x → w.2.1 = y → w.2.2 = v := by
    intro e he h1 h2
    rcases mem_outlineWrites.mp he with ⟨x', hx', rfl | rfl⟩ | ⟨y', hy', rfl | rfl⟩ <;> rfl
  by_cases hcorner : (x = 0 ∨ x = s.width - 1) ∧ (y = 0 ∨ y = s.height - 1)
  · have hc4 : lastVal
        [((0 : Nat), (0 : Nat), v), (0, s.height - 1, v),
          (s.width - 1, 0, v), (s.width - 1, s.height - 1, v)] x y = some v := by
      apply lastVal_eq_some
      · intro e he h1 h2
        simp only [List.mem_cons, List.not_mem_nil, or_false] at he
        rcases he with rfl | rfl | rfl | rfl <;> rfl
      · rcases hcorner with ⟨hcx | hcx, hcy | hcy⟩
        · exact ⟨(0, 0, v), by simp, hcx.symm, hcy.symm⟩
        · exact ⟨(0, s.height - 1, v), by simp, hcx.symm, hcy.symm⟩
        · exact ⟨(s.width - 1, 0, v), by simp, hcx.symm, hcy.symm⟩
        · exact ⟨(s.width - 1, s.height - 1, v), by simp, hcx.symm, hcy.symm⟩
    have hL : lastVal (outlineWrites s.width s.height v v v v) x y = some v := by
      apply lastVal_eq_some _ _ _ _ hallL
      rcases hcorner with ⟨_, hcy | hcy⟩
      · exact ⟨(x, 0, v), mem_outlineWrites.mpr (Or.inl ⟨x, hx, Or.inl rfl⟩),
          rfl, hcy.symm⟩
      · exact ⟨(x, s.height - 1, v),
          mem_outlineWrites.mpr (Or.inl ⟨x, hx, Or.inr rfl⟩), rfl, hcy.symm⟩
    rw [hc4, hL]
    rfl
  · have hc4 : lastVal
        [((0 : Nat), (0 : Nat), v), (0, s.height - 1, v),
          (s.width - 1, 0, v), (s.width - 1, s.height - 1, v)] x y = none := by
      apply lastVal_eq_none
      intro e he
      simp only [List.mem_cons, List.not_mem_nil, or_false] at he
      rcases he with rfl | rfl | rfl | rfl
      · rintro ⟨h1, h2⟩
        exact hcorner ⟨Or.inl h1.symm, Or.inl h2.symm⟩
      · rintro ⟨h1, h2⟩
        exact hcorner ⟨Or.inl h1.symm, Or.inr h2.symm⟩
      · rintro ⟨h1, h2⟩
        exact hcorner ⟨Or.inr h1.symm, Or.inl h2.symm⟩
      · rintro ⟨h1, h2⟩
        exact hcorner ⟨Or.inr h1.symm, Or.inr h2.symm⟩
    rw [hc4]
    rfl

/-- C6 witness: the equivalence evaluated on the concrete 3-by-3 grid. -/
theorem C6_soild_border_eq_border_witness :
    (sampleGrid3.buffer.length = sampleGrid3.width * sampleGrid3.height) ∧
    soild_border sampleGrid3 '*' = border sampleGrid3 ⟨'*', '*', '*', '*', '*'⟩ :=
  ⟨by decide, C6_soild_border_eq_border sampleGrid3 '*' (by decide)⟩

/-- C5: after `border`, the four corner cells hold the style's corner
character (the corner writes come last, so no edge character survives
there), the non-corner cells of row 0 and row `height-1` hold `top` and
`bottom`, and the non-corner cells of column 0 and column `width-1` hold
`left` and `right`. -/
theorem C5_border_cells (s : Screen) (st : Settings)
    (hlen : s.buffer.length = s.width * s.height)
    (hw : 2 ≤ s.width) (hh : 2 ≤ s.height) (x y : Nat) :
    (getCell? (border s st) 0 0 = some st.corners ∧
      getCell? (border s st) (s.width - 1) 0 = some st.corners ∧
      getCell? (border s st) 0 (s.height - 1) = some st.corners ∧
      getCell? (border s st) (s.width - 1) (s.height - 1) = some st.corners) ∧
    (0 < x → x < s.width - 1 →
      getCell? (border s st) x 0 = some st.top ∧
      getCell? (border s st) x (s.height - 1) = some st.bottom) ∧
    (0 < y → y < s.height - 1 →
      getCell? (border s st) 0 y = some st.left ∧
      getCell? (border s st) (s.width - 1) y = some st.right) := by
  unfold border
  have hC4some : ∀ cx cy : Nat, (cx = 0 ∨ cx = s.width - 1) →
      (cy = 0 ∨ cy = s.height - 1) →
      lastVal [((0 : Nat), (0 : Nat), st.corners), (0, s.height - 1, st.corners),
        (s.width - 1, 0, st.corners), (s.width - 1, s.height - 1, st.corners)]
        cx cy = some st.corners := by
    intro cx cy hcx hcy
    apply lastVal_eq_some
    · intro e he h1 h2
      simp only [List.mem_cons, List.not_mem_nil, or_false] at he
      rcases he with rfl | rfl | rfl | rfl <;> rfl
    · rcases hcx with rfl | rfl <;> rcases hcy with rfl | rfl
      · exact ⟨(0, 0, st.corners), by simp, rfl, rfl⟩
      · exact ⟨(0, s.height - 1, st.corners), by simp, rfl, rfl⟩
      · exact ⟨(s.width - 1, 0, st.corners), by simp, rfl, rfl⟩
      · exact ⟨(s.width - 1, s.height - 1, st.corners), by simp, rfl, rfl⟩
  have hC4none : ∀ cx cy : Nat,
      ¬((cx = 0 ∨ cx = s.width - 1) ∧ (cy = 0 ∨ cy = s.height - 1)) →
      lastVal [((0 : Nat), (0 : Nat), st.corners), (0, s.height - 1, st.corners),
        (s.width - 1, 0, st.corners), (s.width - 1, s.height - 1, st.corners)]
        cx cy = none := by
    intro cx cy hmiss
    apply lastVal_eq_none
    intro e he
    simp only [List.mem_cons, List.not_mem_nil, or_false] at he
    rcases he with rfl | rfl | rfl | rfl
    · rintro ⟨h1, h2⟩
      exact hmiss ⟨Or.inl h1.symm, Or.inl h2.symm⟩
    · rintro ⟨h1, h2⟩
      exact hmiss ⟨Or.inl h1.symm, Or.inr h2.symm⟩
    · rintro ⟨h1, h2⟩
      exact hmiss ⟨Or.inr h1.symm, Or.inl h2.symm⟩
    · rintro ⟨h1, h2⟩
      exact hmiss ⟨Or.inr h1.symm, Or.inr h2.symm⟩
  refine ⟨⟨?_, ?_, ?_, ?_⟩, ?_, ?_⟩
  · apply getCell?_writeCells_some s _ 0 0 st.corners hlen (by omega) (by omega)
    rw [lastVal_append, hC4some 0 0 (Or.inl rfl) (Or.inl rfl)]
    rfl
  · apply getCell?_writeCells_some s _ (s.width - 1) 0 st.corners hlen (by omega) (by omega)
    rw [lastVal_append, hC4some (s.width - 1) 0 (Or.inr rfl) (Or.inl rfl)]
    rfl
  · apply getCell?_writeCells_some s _ 0 (s.height - 1) st.corners hlen (by omega) (by omega)
    rw [lastVal_append, hC4some 0 (s.height - 1) (Or.inl rfl) (Or.inr rfl)]
    rfl
  · apply getCell?_writeCells_some s _ (s.width - 1) (s.height - 1) st.corners hlen
      (by omega) (by omega)
    rw [lastVal_append,
      hC4some (s.width - 1) (s.height - 1) (Or.inr rfl) (Or.inr rfl)]
    rfl
  · intro h1 h2
    have hLtop : lastVal
        (outlineWrites s.width s.height st.top st.bottom st.left st.right) x 0 =
        some st.top := by
      apply lastVal_eq_some
      · intro e he he1 he2
        rcases mem_outlineWrites.mp he with ⟨x', hx', rfl | rfl⟩ | ⟨y', hy', rfl | rfl⟩
        · rfl
        · exact absurd (show s.height - 1 = (0 : Nat) from he2) (by omega)
        · exact absurd (show (0 : Nat) = x from he1) (by omega)
        · exact absurd (show s.width - 1 = x from he1) (by omega)
      · exact ⟨(x, 0, st.top),
          mem_outlineWrites.mpr (Or.inl ⟨x, by omega, Or.inl rfl⟩), rfl, rfl⟩
    have hLbot : lastVal
        (outlineWrites s.width s.height st.top st.bottom st.left st.right)
        x (s.height - 1) = some st.bottom := by
      apply lastVal_eq_some
      · intro e he he1 he2
        rcases mem_outlineWrites.mp he with ⟨x', hx', rfl | rfl⟩ | ⟨y', hy', rfl | rfl⟩
        · exact absurd (show (0 : Nat) = s.height - 1 from he2) (by omega)
        · rfl
        · exact absurd (show (0 : Nat) = x from he1) (by omega)
        · exact absurd (show s.width - 1 = x from he1) (by omega)
      · exact ⟨(x, s.height - 1, st.bottom),
          mem_outlineWrites.mpr (Or.inl ⟨x, by omega, Or.inr rfl⟩), rfl, rfl⟩
    constructor
    · apply getCell?_writeCells_some s _ x 0 st.top hlen (by omega) (by omega)
      rw [lastVal_append, hC4none x 0 (by rintro ⟨hc, _⟩; omega), hLtop]
      rfl
    · apply getCell?_writeCells_some s _ x (s.height - 1) st.bottom hlen
        (by omega) (by omega)
      rw [lastVal_append, hC4none x (s.height - 1) (by rintro ⟨hc, _⟩; omega), hLbot]
      rfl
  · intro h1 h2
    have hLleft : lastVal
        (outlineWrites s.width s.height st.top st.bottom st.left st.right) 0 y =
        some st.left := by
      apply lastVal_eq_some
      · intro e he he1 he2
        rcases mem_outlineWrites.mp he with ⟨x', hx', rfl | rfl⟩ | ⟨y', hy', rfl | rfl⟩
        · exact absurd (show (0 : Nat) = y from he2) (by omega)
        · exact absurd (show s.height - 1 = y from he2) (by omega)
        · rfl
        · exact absurd (show s.width - 1 = (0 : Nat) from he1) (by omega)
      · exact ⟨(0, y, st.left),
          mem_outlineWrites.mpr (Or.inr ⟨y, by omega, Or.inl rfl⟩), rfl, rfl⟩
    have hLright : lastVal
        (outlineWrites s.width s.height st.top st.bottom st.left st.right)
        (s.width - 1) y = some st.right := by
      apply lastVal_eq_some
      · intro e he he1 he2
        rcases mem_outlineWrites.mp he with ⟨x', hx', rfl | rfl⟩ | ⟨y', hy', rfl | rfl⟩
        · exact absurd (show (0 : Nat) = y from he2) (by omega)
        · exact absurd (show s.height - 1 = y from he2) (by omega)
        · exact absurd (show (0 : Nat) = s.width - 1 from he1) (by omega)
        · rfl
      · exact ⟨(s.width - 1, y, st.right),
          mem_outlineWrites.mpr (Or.inr ⟨y, by omega, Or.inr rfl⟩), rfl, rfl⟩
    constructor
    · apply getCell?_writeCells_some s _ 0 y st.left hlen (by omega) (by omega)
      rw [lastVal_append, hC4none 0 y (by rintro ⟨_, hc⟩; omega), hLleft]
      rfl
    · apply getCell?_writeCells_some s _ (s.width - 1) y st.right hlen
        (by omega) (by omega)
      rw [lastVal_append, hC4none (s.width - 1) y (by rintro ⟨_, hc⟩; omega), hLright]
      rfl

/-- C5 witness: the border cell classes evaluated on the 3-by-3 grid at the
interior edge coordinates `x = 1`, `y = 1`. -/
theorem C5_border_cells_witness :
    (sampleGrid3.buffer.length = sampleGrid3.width * sampleGrid3.height ∧
      2 ≤ sampleGrid3.width ∧ 2 ≤ sampleGrid3.height) ∧
    ((getCell? (border sampleGrid3 ⟨'+', '-', '|', '=', '!'⟩) 0 0 = some '+' ∧
        getCell? (border sampleGrid3 ⟨'+', '-', '|', '=', '!'⟩)
          (sampleGrid3.width - 1) 0 = some '+' ∧
        getCell? (border sampleGrid3 ⟨'+', '-', '|', '=', '!'⟩) 0
          (sampleGrid3.height - 1) = some '+' ∧
        getCell? (border sampleGrid3 ⟨'+', '-', '|', '=', '!'⟩)
          (sampleGrid3.width - 1) (sampleGrid3.height - 1) = some '+') ∧
      (0 < 1 → 1 < sampleGrid3.width - 1 →
        getCell? (border sampleGrid3 ⟨'+', '-', '|', '=', '!'⟩) 1 0 = some '-' ∧
        getCell? (border sampleGrid3 ⟨'+', '-', '|', '=', '!'⟩) 1
          (sampleGrid3.height - 1) = some '=') ∧
      (0 < 1 → 1 < sampleGrid3.height - 1 →
        getCell? (border sampleGrid3 ⟨'+', '-', '|', '=', '!'⟩) 0 1 = some '|' ∧
        getCell? (border sampleGrid3 ⟨'+', '-', '|', '=', '!'⟩)
          (sampleGrid3.width - 1) 1 = some '!')) :=
  ⟨by decide, C5_border_cells sampleGrid3 ⟨'+', '-', '|', '=', '!'⟩
    (by decide) (by decide) (by decide) 1 1⟩

/-- C7: for `y < height` and `x <= width`, `text` writes exactly
`min (length value) (width - x)` characters left to right starting at
column `x` of row `y` (silently truncating overflow, with no error and no
wrap to the next row), and leaves every other cell unchanged. -/
theorem C7_text_spec (s : Screen) (value : List Char) (x y : Nat)
    (hlen : s.buffer.length = s.width * s.height)
    (hy : y < s.height) (hx : x ≤ s.width) (k a b : Nat) :
    (k < min value.length (s.width - x) →
      getCell? (text s value x y) (x + k) y = value[k]?) ∧
    (¬(b = y ∧ x ≤ a ∧ a < x + min value.length (s.width - x)) →
      getCell? (text s value x y) a b = getCell? s a b) := by
  unfold text
  constructor
  · intro hk
    have hk2 := Nat.lt_min.mp hk
    have hkl : k < value.length := hk2.1
    rw [List.getElem?_eq_getElem hkl]
    apply getCell?_writeCells_some s _ (x + k) y _ hlen (by omega) hy
    apply lastVal_eq_some
    · intro e he h1 h2
      rcases (mem_textWrites value x s.width y).mp he with ⟨j, c', hj, hw', rfl⟩
      have h1' : x + j = x + k := h1
      have hjk : j = k := by omega
      subst hjk
      have hsome : value[j]? = some c' := hj
      rw [List.getElem?_eq_getElem hkl] at hsome
      exact (Option.some_inj.mp hsome).symm
    · refine ⟨(x + k, y, value.get ⟨k, hkl⟩),
        (mem_textWrites value x s.width y).mpr ?_, rfl, rfl⟩
      exact ⟨k, value.get ⟨k, hkl⟩,
        by rw [List.getElem?_eq_getElem hkl]; rfl, by omega, rfl⟩
  · intro hmiss
    apply getCell?_writeCells_none s _ a b hlen
    apply lastVal_eq_none
    intro e he
    rcases (mem_textWrites value x s.width y).mp he with ⟨j, c', hj, hw', rfl⟩
    rintro ⟨h1, h2⟩
    have hjl : j < value.length := by
      by_contra hcon
      push_neg at hcon
      rw [List.getElem?_eq_none hcon] at hj
      exact Option.noConfusion hj
    have h1' : x + j = a := h1
    have h2' : y = b := h2
    exact hmiss ⟨h2'.symm, by omega, by omega⟩

/-- C7 witness: writing `hello world` at column 1 of row 1 on the 3-by-3
grid truncates to 2 characters; cell `(1, 1)` receives `h`, cell `(0, 0)`
is untouched. -/
theorem C7_text_spec_witness :
    (sampleGrid3.buffer.length = sampleGrid3.width * sampleGrid3.height ∧
      1 < sampleGrid3.height ∧ 1 ≤ sampleGrid3.width) ∧
    ((0 < min ("hello world".toList.length) (sampleGrid3.width - 1) →
        getCell? (text sampleGrid3 "hello world".toList 1 1) (1 + 0) 1 =
          "hello world".toList[0]?) ∧
      (¬((0 : Nat) = 1 ∧ 1 ≤ 0 ∧
          0 < 1 + min ("hello world".toList.length) (sampleGrid3.width - 1)) →
        getCell? (text sampleGrid3 "hello world".toList 1 1) 0 0 =
          getCell? sampleGrid3 0 0)) :=
  ⟨by decide, C7_text_spec sampleGrid3 "hello world".toList 1 1
    (by decide) (by decide) (by decide) 0 0 0⟩

theorem overlay_if_same (P : Prop) [Decidable P] (c : Char) :
    overlay (if P then some c else none) (some c) = some c := by
  split <;> rfl

theorem lastVal_boxWrites {a b c d : Nat} {v : Char} (x y : Nat) :
    lastVal ((natRange a b).flatMap fun i =>
      (natRange c d).map fun j => (i, j, v)) x y =
      if a ≤ x ∧ x < b ∧ c ≤ y ∧ y < d then some v else none := by
  by_cases h : a ≤ x ∧ x < b ∧ c ≤ y ∧ y < d
  · rw [if_pos h]
    apply lastVal_eq_some
    · intro e he h1 h2
      rcases mem_boxWrites.mp he with ⟨i, j, _, _, _, _, rfl⟩
      rfl
    · exact ⟨(x, y, v),
        mem_boxWrites.mpr ⟨x, y, h.1, h.2.1, h.2.2.1, h.2.2.2, rfl⟩, rfl, rfl⟩
  · rw [if_neg h]
    apply lastVal_eq_none
    intro e he
    rcases mem_boxWrites.mp he with ⟨i, j, hi1, hi2, hj1, hj2, rfl⟩
    rintro ⟨hh1, hh2⟩
    have e1 : i = x := hh1
    have e2 : j = y := hh2
    exact h ⟨by omega, by omega, by omega, by omega⟩

theorem lastVal_rowPairWrites {a b j1 j2 : Nat} {v : Char} (x y : Nat) :
    lastVal ((natRange a b).flatMap fun i => [(i, j1, v), (i, j2, v)]) x y =
      if (a ≤ x ∧ x < b) ∧ (y = j1 ∨ y = j2) then some v else none := by
  by_cases h : (a ≤ x ∧ x < b) ∧ (y = j1 ∨ y = j2)
  · rw [if_pos h]
    apply lastVal_eq_some
    · intro e he h1 h2
      rcases mem_rowPairWrites.mp he with ⟨i, _, _, rfl | rfl⟩ <;> rfl
    · rcases h.2 with rfl | rfl
      · exact ⟨(x, y, v),
          mem_rowPairWrites.mpr ⟨x, h.1.1, h.1.2, Or.inl rfl⟩, rfl, rfl⟩
      · exact ⟨(x, y, v),
          mem_rowPairWrites.mpr ⟨x, h.1.1, h.1.2, Or.inr rfl⟩, rfl, rfl⟩
  · rw [if_neg h]
    apply lastVal_eq_none
    intro e he
    rcases mem_rowPairWrites.mp he with ⟨i, hi1, hi2, rfl | rfl⟩
    · rintro ⟨hh1, hh2⟩
      have e1 : i = x := hh1
      exact h ⟨⟨by omega, by omega⟩, Or.inl hh2.symm⟩
    · rintro ⟨hh1, hh2⟩
      have e1 : i = x := hh1
      exact h ⟨⟨by omega, by omega⟩, Or.inr hh2.symm⟩

theorem lastVal_colPairWrites {c d i1 i2 : Nat} {v : Char} (x y : Nat) :
    lastVal ((natRange c d).flatMap fun j => [(i1, j, v), (i2, j, v)]) x y =
      if (c ≤ y ∧ y < d) ∧ (x = i1 ∨ x = i2) then some v else none := by
  by_cases h : (c ≤ y ∧ y < d) ∧ (x = i1 ∨ x = i2)
  · rw [if_pos h]
    apply lastVal_eq_some
    · intro e he h1 h2
      rcases mem_colPairWrites.mp he with ⟨j, _, _, rfl | rfl⟩ <;> rfl
    · rcases h.2 with rfl | rfl
      · exact ⟨(x, y, v),
          mem_colPairWrites.mpr ⟨y, h.1.1, h.1.2, Or.inl rfl⟩, rfl, rfl⟩
      · exact ⟨(x, y, v),
          mem_colPairWrites.mpr ⟨y, h.1.1, h.1.2, Or.inr rfl⟩, rfl, rfl⟩
  · rw [if_neg h]
    apply lastVal_eq_none
    intro e he
    rcases mem_colPairWrites.mp he with ⟨j, hj1, hj2, rfl | rfl⟩
    · rintro ⟨hh1, hh2⟩
      have e2 : j = y := hh2
      exact h ⟨⟨by omega, by omega⟩, Or.inl hh1.symm⟩
    · rintro ⟨hh1, hh2⟩
      have e2 : j = y := hh2
      exact h ⟨⟨by omega, by omega⟩, Or.inr hh1.symm⟩

theorem overlay_pair_hit (P1 P2 : Prop) [Decidable P1] [Decidable P2]
    (c : Char) (o : Option Char) (h : P1 ∨ P2) :
    overlay (overlay (if P1 then some c else none) (if P2 then some c else none)) o =
      some c := by
  rcases h with h | h
  · rw [if_pos h]
    rfl
  · rw [if_pos h]
    by_cases h1 : P1
    · rw [if_pos h1]
      rfl
    · rw [if_neg h1]
      rfl

theorem overlay_pair_miss (P1 P2 P3 : Prop) [Decidable P1] [Decidable P2] [Decidable P3]
    (c c' : Char) (h1 : ¬P1) (h2 : ¬P2) (h3 : P3) :
    overlay (overlay (if P1 then some c else none) (if P2 then some c else none))
      (if P3 then some c' else none) = some c' := by
  rw [if_neg h1, if_neg h2, if_pos h3]
  rfl

theorem overlay_all_miss (P1 P2 P3 : Prop) [Decidable P1] [Decidable P2] [Decidable P3]
    (c c' : Char) (h1 : ¬P1) (h2 : ¬P2) (h3 : ¬P3) :
    overlay (overlay (if P1 then some c else none) (if P2 then some c else none))
      (if P3 then some c' else none) = none := by
  rw [if_neg h1, if_neg h2, if_neg h3]
  rfl

/-- C3: with fill and stroke both enabled and the rectangle in bounds,
`rect cx cy dw dh` leaves the stroke character on every cell of the edge of
the inclusive box `[cx - dw/2, cx + dw/2] x [cy - dh/2, cy + dh/2]` (stroke
is written after fill, so it overwrites fill on the border), the fill
character on every strictly interior cell, and every cell outside the box
unchanged. -/
theorem C3_rect_spec (s : Screen) (cx cy dw dh : Nat)
    (hlen : s.buffer.length = s.width * s.height)
    (hf : s.fill = true) (hs : s.stroke = true)
    (hb1 : dw / 2 ≤ cx) (hb2 : dh / 2 ≤ cy)
    (hb3 : cx + dw / 2 < s.width) (hb4 : cy + dh / 2 < s.height)
    (i j : Nat) :
    (cx - dw / 2 ≤ i → i ≤ cx + dw / 2 → cy - dh / 2 ≤ j → j ≤ cy + dh / 2 →
      ((i = cx - dw / 2 ∨ i = cx + dw / 2 ∨ j = cy - dh / 2 ∨ j = cy + dh / 2) →
        getCell? (rect s cx cy dw dh) i j = some s.stroke_value) ∧
      (¬(i = cx - dw / 2 ∨ i = cx + dw / 2 ∨ j = cy - dh / 2 ∨ j = cy + dh / 2) →
        getCell? (rect s cx cy dw dh) i j = some s.fill_value)) ∧
    (¬(cx - dw / 2 ≤ i ∧ i ≤ cx + dw / 2 ∧ cy - dh / 2 ≤ j ∧ j ≤ cy + dh / 2) →
      getCell? (rect s cx cy dw dh) i j = getCell? s i j) := by
  unfold rect rectWrites
  simp only [hf, hs, if_true]
  constructor
  · intro hx1 hx2 hy1 hy2
    constructor
    · intro hedge
      apply getCell?_writeCells_some s _ i j s.stroke_value hlen (by omega) (by omega)
      rw [lastVal_append, lastVal_append, lastVal_boxWrites, lastVal_rowPairWrites,
        lastVal_colPairWrites]
      apply overlay_pair_hit
      rcases hedge with hi | hi | hj | hj
      · exact Or.inl ⟨⟨by omega, by omega⟩, Or.inl (by omega)⟩
      · exact Or.inl ⟨⟨by omega, by omega⟩, Or.inr (by omega)⟩
      · exact Or.inr ⟨⟨by omega, by omega⟩, Or.inl (by omega)⟩
      · exact Or.inr ⟨⟨by omega, by omega⟩, Or.inr (by omega)⟩
    · intro hedge
      apply getCell?_writeCells_some s _ i j s.fill_value hlen (by omega) (by omega)
      rw [lastVal_append, lastVal_append, lastVal_boxWrites, lastVal_rowPairWrites,
        lastVal_colPairWrites]
      apply overlay_pair_miss
      · rintro ⟨_, hc | hc⟩ <;> omega
      · rintro ⟨_, hc | hc⟩ <;> omega
      · exact ⟨by omega, by omega, by omega, by omega⟩
  · intro hout
    apply getCell?_writeCells_none s _ i j hlen
    rw [lastVal_append, lastVal_append, lastVal_boxWrites, lastVal_rowPairWrites,
      lastVal_colPairWrites]
    apply overlay_all_miss
    · rintro ⟨hr, hc | hc⟩ <;> omega
    · rintro ⟨hr, hc | hc⟩ <;> omega
    · rintro ⟨h1, h2, h3, h4⟩
      exact hout ⟨h1, by omega, h3, by omega⟩

/-- C3 witness: the documented `rect 2 2 2 2` example on the 5-by-5 dash
canvas with fill `#` and stroke `*`, checked at the edge cell `(1, 2)`
(stroke), and through the other conjuncts at interior and outside cells. -/
theorem C3_rect_spec_witness :
    (sampleCanvas5.buffer.length = sampleCanvas5.width * sampleCanvas5.height ∧
      sampleCanvas5.fill = true ∧ sampleCanvas5.stroke = true ∧
      2 / 2 ≤ 2 ∧ 2 + 2 / 2 < sampleCanvas5.width ∧
      2 + 2 / 2 < sampleCanvas5.height) ∧
    ((2 - 2 / 2 ≤ 1 → 1 ≤ 2 + 2 / 2 → 2 - 2 / 2 ≤ 2 → 2 ≤ 2 + 2 / 2 →
      ((1 = 2 - 2 / 2 ∨ 1 = 2 + 2 / 2 ∨ 2 = 2 - 2 / 2 ∨ 2 = 2 + 2 / 2) →
        getCell? (rect sampleCanvas5 2 2 2 2) 1 2 = some sampleCanvas5.stroke_value) ∧
      (¬(1 = 2 - 2 / 2 ∨ 1 = 2 + 2 / 2 ∨ 2 = 2 - 2 / 2 ∨ 2 = 2 + 2 / 2) →
        getCell? (rect sampleCanvas5 2 2 2 2) 1 2 = some sampleCanvas5.fill_value)) ∧
    (¬(2 - 2 / 2 ≤ 1 ∧ 1 ≤ 2 + 2 / 2 ∧ 2 - 2 / 2 ≤ 2 ∧ 2 ≤ 2 + 2 / 2) →
      getCell? (rect sampleCanvas5 2 2 2 2) 1 2 = getCell? sampleCanvas5 1 2)) :=
  ⟨by decide, C3_rect_spec sampleCanvas5 2 2 2 2 (by decide) (by decide) (by decide)
    (by decide) (by decide) (by decide) (by decide) 1 2⟩

theorem lastVal_circleWrites (s : Screen) (cx cy r : Nat) (i j : Nat) :
    lastVal (circleWrites s cx cy r) i j =
      if (cx - r ≤ i ∧ i < cx + r + 1) ∧ (cy - r ≤ j ∧ j < cy + r + 1) then
        (if sqDist cx cy i j < (r : Int) * (r : Int) ∧ s.fill = true then
          some s.fill_value
        else if (sqDist cx cy i j = (r : Int) * (r : Int) ∨
            sqDist cx cy i j = (r : Int) * (r : Int) + 1) ∧ s.stroke = true then
          some s.stroke_value
        else none)
      else none := by
  by_cases hbox : (cx - r ≤ i ∧ i < cx + r + 1) ∧ (cy - r ≤ j ∧ j < cy + r + 1)
  · rw [if_pos hbox]
    by_cases hfill : sqDist cx cy i j < (r : Int) * (r : Int) ∧ s.fill = true
    · rw [if_pos hfill]
      apply lastVal_eq_some
      · intro e he h1 h2
        rcases mem_circleWrites.mp he with ⟨a, b, hba, hbb, hin⟩
        by_cases hc1 : sqDist cx cy a b < (r : Int) * (r : Int) ∧ s.fill = true
        · rw [if_pos hc1] at hin
          rw [List.mem_singleton] at hin
          subst hin
          rfl
        · rw [if_neg hc1] at hin
          by_cases hc2 : (sqDist cx cy a b = (r : Int) * (r : Int) ∨
              sqDist cx cy a b = (r : Int) * (r : Int) + 1) ∧ s.stroke = true
          · rw [if_pos hc2, List.mem_singleton] at hin
            subst hin
            have e1 : a = i := h1
            have e2 : b = j := h2
            subst e1
            subst e2
            exact absurd hfill hc1
          · rw [if_neg hc2] at hin
            exact absurd hin (List.not_mem_nil e)
      · refine ⟨(i, j, s.fill_value), mem_circleWrites.mpr
          ⟨i, j, hbox.1, hbox.2, ?_⟩, rfl, rfl⟩
        rw [if_pos hfill]
        exact List.mem_singleton.mpr rfl
    · rw [if_neg hfill]
      by_cases hstroke : (sqDist cx cy i j = (r : Int) * (r : Int) ∨
          sqDist cx cy i j = (r : Int) * (r : Int) + 1) ∧ s.stroke = true
      · rw [if_pos hstroke]
        apply lastVal_eq_some
        · intro e he h1 h2
          rcases mem_circleWrites.mp he with ⟨a, b, hba, hbb, hin⟩
          by_cases hc1 : sqDist cx cy a b < (r : Int) * (r : Int) ∧ s.fill = true
          · rw [if_pos hc1, List.mem_singleton] at hin
            subst hin
            have e1 : a = i := h1
            have e2 : b = j := h2
            subst e1
            subst e2
            exact absurd hc1 hfill
          · rw [if_neg hc1] at hin
            by_cases hc2 : (sqDist cx cy a b = (r : Int) * (r : Int) ∨
                sqDist cx cy a b = (r : Int) * (r : Int) + 1) ∧ s.stroke = true
            · rw [if_pos hc2, List.mem_singleton] at hin
              subst hin
              rfl
            · rw [if_neg hc2] at hin
              exact absurd hin (List.not_mem_nil e)
        · refine ⟨(i, j, s.stroke_value), mem_circleWrites.mpr
            ⟨i, j, hbox.1, hbox.2, ?_⟩, rfl, rfl⟩
          rw [if_neg hfill, if_pos hstroke]
          exact List.mem_singleton.mpr rfl
      · rw [if_neg hstroke]
        apply lastVal_eq_none
        intro e he
        rcases mem_circleWrites.mp he with ⟨a, b, hba, hbb, hin⟩
        by_cases hc1 : sqDist cx cy a b < (r : Int) * (r : Int) ∧ s.fill = true
        · rw [if_pos hc1, List.mem_singleton] at hin
          subst hin
          rintro ⟨h1, h2⟩
          have e1 : a = i := h1
          have e2 : b = j := h2
          subst e1
          subst e2
          exact absurd hc1 hfill
        · rw [if_neg hc1] at hin
          by_cases hc2 : (sqDist cx cy a b = (r : Int) * (r : Int) ∨
              sqDist cx cy a b = (r : Int) * (r : Int) + 1) ∧ s.stroke = true
          · rw [if_pos hc2, List.mem_singleton] at hin
            subst hin
            rintro ⟨h1, h2⟩
            have e1 : a = i := h1
            have e2 : b = j := h2
            subst e1
            subst e2
            exact absurd hc2 hstroke
          · rw [if_neg hc2] at hin
            exact absurd hin (List.not_mem_nil e)
  · rw [if_neg hbox]
    apply lastVal_eq_none
    intro e he
    rcases mem_circleWrites.mp he with ⟨a, b, hba, hbb, hin⟩
    by_cases hc1 : sqDist cx cy a b < (r : Int) * (r : Int) ∧ s.fill = true
    · rw [if_pos hc1, List.mem_singleton] at hin
      subst hin
      rintro ⟨h1, h2⟩
      have e1 : a = i := h1
      have e2 : b = j := h2
      exact hbox ⟨⟨by omega, by omega⟩, ⟨by omega, by omega⟩⟩
    · rw [if_neg hc1] at hin
      by_cases hc2 : (sqDist cx cy a b = (r : Int) * (r : Int) ∨
          sqDist cx cy a b = (r : Int) * (r : Int) + 1) ∧ s.stroke = true
      · rw [if_pos hc2, List.mem_singleton] at hin
        subst hin
        rintro ⟨h1, h2⟩
        have e1 : a = i := h1
        have e2 : b = j := h2
        exact hbox ⟨⟨by omega, by omega⟩, ⟨by omega, by omega⟩⟩
      · rw [if_neg hc2] at hin
        exact absurd hin (List.not_mem_nil e)

/-- C2: for an in-bounds circle call, every bounding-box cell with squared
distance `d < r^2` holds the fill character when fill is enabled, every cell
with `d = r^2` or `d = r^2 + 1` holds the stroke character when stroke is
enabled, and every cell with `d > r^2 + 1` — as well as every cell outside
the box — is unchanged. -/
theorem C2_circle_spec (s : Screen) (cx cy r : Nat)
    (hlen : s.buffer.length = s.width * s.height)
    (hc1 : r ≤ cx) (hc2 : r ≤ cy) (hc3 : cx + r < s.width) (hc4 : cy + r < s.height)
    (i j : Nat) :
    (cx - r ≤ i → i ≤ cx + r → cy - r ≤ j → j ≤ cy + r →
      (sqDist cx cy i j < (r : Int) * (r : Int) → s.fill = true →
        getCell? (draw_circle s cx cy r) i j = some s.fill_value) ∧
      ((sqDist cx cy i j = (r : Int) * (r : Int) ∨
          sqDist cx cy i j = (r : Int) * (r : Int) + 1) → s.stroke = true →
        getCell? (draw_circle s cx cy r) i j = some s.stroke_value)) ∧
    (((r : Int) * (r : Int) + 1 < sqDist cx cy i j ∨
        ¬(cx - r ≤ i ∧ i ≤ cx + r ∧ cy - r ≤ j ∧ j ≤ cy + r)) →
      getCell? (draw_circle s cx cy r) i j = getCell? s i j) := by
  unfold draw_circle
  constructor
  · intro hbx1 hbx2 hby1 hby2
    constructor
    · intro hd hfill
      apply getCell?_writeCells_some s _ i j s.fill_value hlen (by omega) (by omega)
      rw [lastVal_circleWrites, if_pos ⟨⟨by omega, by omega⟩, by omega, by omega⟩,
        if_pos ⟨hd, hfill⟩]
    · intro hd hstroke
      apply getCell?_writeCells_some s _ i j s.stroke_value hlen (by omega) (by omega)
      rw [lastVal_circleWrites, if_pos ⟨⟨by omega, by omega⟩, by omega, by omega⟩,
        if_neg (by rintro ⟨hlt, _⟩; rcases hd with hd | hd <;> omega),
        if_pos ⟨hd, hstroke⟩]
  · intro hout
    apply getCell?_writeCells_none s _ i j hlen
    rw [lastVal_circleWrites]
    rcases hout with hd | hbox
    · by_cases hb : (cx - r ≤ i ∧ i < cx + r + 1) ∧ (cy - r ≤ j ∧ j < cy + r + 1)
      · rw [if_pos hb, if_neg (by rintro ⟨hlt, _⟩; omega),
          if_neg (by rintro ⟨hd2 | hd2, _⟩ <;> omega)]
      · rw [if_neg hb]
    · have hnb : ¬((cx - r ≤ i ∧ i < cx + r + 1) ∧ (cy - r ≤ j ∧ j < cy + r + 1)) := by
        rintro ⟨⟨ha1, ha2⟩, hb1, hb2⟩
        exact hbox ⟨ha1, by omega, hb1, by omega⟩
      rw [if_neg hnb]

/-- C2 witness: the documented `draw_circle` behavior on the 7-by-7 canvas
with fill `#` and stroke `o` at center `(3, 3)`, radius 2, checked at the
center cell `(3, 3)` (fill) and through the other conjuncts. -/
theorem C2_circle_spec_witness :
    (sampleCircle7.buffer.length = sampleCircle7.width * sampleCircle7.height ∧
      2 ≤ 3 ∧ 3 + 2 < sampleCircle7.width ∧ 3 + 2 < sampleCircle7.height) ∧
    ((3 - 2 ≤ 3 → 3 ≤ 3 + 2 → 3 - 2 ≤ 3 → 3 ≤ 3 + 2 →
      (sqDist 3 3 3 3 < (2 : Int) * (2 : Int) → sampleCircle7.fill = true →
        getCell? (draw_circle sampleCircle7 3 3 2) 3 3 =
          some sampleCircle7.fill_value) ∧
      ((sqDist 3 3 3 3 = (2 : Int) * (2 : Int) ∨
          sqDist 3 3 3 3 = (2 : Int) * (2 : Int) + 1) → sampleCircle7.stroke = true →
        getCell? (draw_circle sampleCircle7 3 3 2) 3 3 =
          some sampleCircle7.stroke_value)) ∧
    (((2 : Int) * (2 : Int) + 1 < sqDist 3 3 3 3 ∨
        ¬(3 - 2 ≤ 3 ∧ 3 ≤ 3 + 2 ∧ 3 - 2 ≤ 3 ∧ 3 ≤ 3 + 2)) →
      getCell? (draw_circle sampleCircle7 3 3 2) 3 3 = getCell? sampleCircle7 3 3)) :=
  ⟨by decide, C2_circle_spec sampleCircle7 3 3 2 (by decide) (by decide) (by decide)
    (by decide) (by decide) 3 3⟩

/-- C10 counterexample: on the 1-by-(2^24 + 2) blank screen with stroke `*`
enabled, the in-bounds vertical call `line 0 (2^24 + 1) 0 0` does not write
the stroke character at `(x1, y1) = (0, 2^24 + 1)` — that cell keeps its
blank — and instead writes a different cell, `(0, 2^24)`: the `u32 as f32`
cast of the selected seed `max(y1, y2) = 2^24 + 1` rounds it (ties to even)
down to `2^24`, refuting the claim that the single write is at `(x1, y1)`
and that every other cell is unchanged. -/
theorem C10_vertical_line_counterexample :
    tallVert.stroke = true ∧ 0 < tallVert.width ∧ 2 ^ 24 + 1 < tallVert.height ∧
    getCell? (line tallVert 0 (2 ^ 24 + 1) 0 0) 0 (2 ^ 24 + 1) = some ' ' ∧
    getCell? (line tallVert 0 (2 ^ 24 + 1) 0 0) 0 (2 ^ 24 + 1) ≠
      some tallVert.stroke_value ∧
    getCell? (line tallVert 0 (2 ^ 24 + 1) 0 0) 0 (2 ^ 24) =
      some tallVert.stroke_value := by
  have hlen : tallVert.buffer.length = tallVert.width * tallVert.height := by
    show (List.replicate (2 ^ 24 + 2) ' ').length = 1 * (2 ^ 24 + 2)
    rw [List.length_replicate]
    omega
  have h0 : natToF32 0 = 0 := by decide
  have hy : natToF32 (2 ^ 24 + 1) = 2 ^ 24 := by decide
  have hseed : natToF32 (lineSeedY 0 (2 ^ 24 + 1) 0 0) = 2 ^ 24 := by
    unfold lineSeedY
    rw [sub_self, h0, hy]
    rw [fdiv_zero_neg _ (by norm_num), show fgtZero Fl.ninf = false from rfl,
      if_neg (by simp), Nat.max_eq_left (by omega), hy]
  have hline : line tallVert 0 (2 ^ 24 + 1) 0 0 =
      writeCells tallVert [(0, 2 ^ 24, tallVert.stroke_value)] := by
    unfold line
    rw [if_pos (show tallVert.stroke = true from rfl), Nat.min_self, Nat.max_self,
      show (0 : Nat) + 1 - 0 = 1 from rfl, hseed]
    have hws : lineWritesAux (fdiv ((natToF32 0 : ℚ) - (natToF32 (2 ^ 24 + 1) : ℚ))
        ((natToF32 0 : ℚ) - (natToF32 0 : ℚ))) tallVert.stroke_value 0
        (Fl.fin ((2 ^ 24 : Nat) : ℚ)) 1 = [(0, 2 ^ 24, tallVert.stroke_value)] := by
      simp only [lineWritesAux]
      rw [froundU32_natCast (2 ^ 24) (by norm_num)]
    rw [hws]
  have hbase : getCell? tallVert 0 (2 ^ 24 + 1) = some ' ' := by
    unfold getCell?
    rw [if_neg (by decide)]
    show (List.replicate (2 ^ 24 + 2) ' ')[(2 ^ 24 + 1) * 1 + 0]? = some ' '
    rw [List.getElem?_replicate, if_pos (by omega)]
  have hnone : lastVal [(0, 2 ^ 24, tallVert.stroke_value)] 0 (2 ^ 24 + 1) = none := by
    apply lastVal_eq_none
    intro e he
    rw [List.mem_singleton] at he
    subst he
    rintro ⟨h1, h2⟩
    have h2' : 2 ^ 24 = 2 ^ 24 + 1 := h2
    omega
  have hcell : getCell? (line tallVert 0 (2 ^ 24 + 1) 0 0) 0 (2 ^ 24 + 1) = some ' ' := by
    rw [hline, getCell?_writeCells_none tallVert _ 0 (2 ^ 24 + 1) hlen hnone, hbase]
  refine ⟨rfl, by decide, by decide, hcell, ?_, ?_⟩
  · rw [hcell]
    decide
  · rw [hline]
    apply getCell?_writeCells_some tallVert _ 0 (2 ^ 24) tallVert.stroke_value hlen
      (by decide) (by decide)
    apply lastVal_eq_some
    · intro e he h1 h2
      rw [List.mem_singleton] at he
      subst he
      rfl
    · exact ⟨(0, 2 ^ 24, tallVert.stroke_value), List.mem_singleton.mpr rfl, rfl, rfl⟩

/-- C10 (amended): with stroke enabled, `x1 = x2`, `(x1, y1)` in bounds and
`y1 < 2^24` (so the `u32 as f32` cast of the seed is exact), the slope
`dy / 0.0` is an infinity (or NaN when the cast values of `y1` and `y2`
coincide), the seed's cast resolves to `y1` in every case, and the single
loop iteration writes the stroke character at exactly `(x1, y1)` —
regardless of `y2` — leaving every other cell unchanged.  (For
`y1 ≥ 2^24` the cast can move the seed to a different row, as the
counterexample above shows.) -/
theorem C10_vertical_line_single_cell (s : Screen) (x1 y1 y2 : Nat)
    (hlen : s.buffer.length = s.width * s.height)
    (hs : s.stroke = true) (hx : x1 < s.width) (hy : y1 < s.height)
    (hb : y1 < 2 ^ 24) (a b : Nat) :
    getCell? (line s x1 y1 x1 y2) x1 y1 = some s.stroke_value ∧
    (¬(a = x1 ∧ b = y1) → getCell? (line s x1 y1 x1 y2) a b = getCell? s a b) := by
  unfold line
  rw [if_pos hs, lineSeedY_vertical_small x1 y1 y2 hb, Nat.min_self, Nat.max_self,
    show x1 + 1 - x1 = 1 from by omega]
  have hlist : lineWritesAux (fdiv ((natToF32 y2 : ℚ) - (natToF32 y1 : ℚ))
      ((natToF32 x1 : ℚ) - (natToF32 x1 : ℚ)))
      s.stroke_value x1 (Fl.fin ((y1 : Nat) : ℚ)) 1 = [(x1, y1, s.stroke_value)] := by
    simp only [lineWritesAux]
    rw [froundU32_natCast y1 (lt_trans hb (by norm_num))]
  rw [hlist]
  constructor
  · apply getCell?_writeCells_some s _ x1 y1 s.stroke_value hlen hx hy
    apply lastVal_eq_some
    · intro e he h1 h2
      rw [List.mem_singleton] at he
      subst he
      rfl
    · exact ⟨(x1, y1, s.stroke_value), List.mem_singleton.mpr rfl, rfl, rfl⟩
  · intro hmiss
    apply getCell?_writeCells_none s _ a b hlen
    apply lastVal_eq_none
    intro e he
    rw [List.mem_singleton] at he
    subst he
    rintro ⟨h1, h2⟩
    exact hmiss ⟨h1.symm, h2.symm⟩

/-- C10 witness: the vertical call `line 2 1 2 3` on the 4-by-5 stroke-only
canvas writes only `(2, 1)`; the cell `(2, 2)` below is untouched. -/
theorem C10_vertical_line_single_cell_witness :
    (sampleLine45.buffer.length = sampleLine45.width * sampleLine45.height ∧
      sampleLine45.stroke = true ∧ 2 < sampleLine45.width ∧
      1 < sampleLine45.height ∧ 1 < 2 ^ 24) ∧
    (getCell? (line sampleLine45 2 1 2 3) 2 1 = some sampleLine45.stroke_value ∧
      (¬((2 : Nat) = 2 ∧ (2 : Nat) = 1) →
        getCell? (line sampleLine45 2 1 2 3) 2 2 = getCell? sampleLine45 2 2)) :=
  ⟨by decide, C10_vertical_line_single_cell sampleLine45 2 1 3 (by decide) (by decide)
    (by decide) (by decide) (by decide) 2 2⟩

theorem line_hit (s : Screen) (x1 y1 x2 y2 k : Nat)
    (hlen : s.buffer.length = s.width * s.height) (hs : s.stroke = true)
    (hk : k ≤ max x1 x2 - min x1 x2) (hw : min x1 x2 + k < s.width)
    (hh : lineRasterY x1 y1 x2 y2 k < s.height) :
    getCell? (line s x1 y1 x2 y2) (min x1 x2 + k) (lineRasterY x1 y1 x2 y2 k) =
      some s.stroke_value := by
  unfold line
  rw [if_pos hs]
  apply getCell?_writeCells_some s _ _ _ s.stroke_value hlen hw hh
  apply lastVal_eq_some
  · intro e he h1 h2
    rcases (mem_lineWritesAux _ _ _ _ _).mp he with ⟨j, hj, rfl⟩
    rfl
  · have hmm : min x1 x2 ≤ max x1 x2 := min_le_max
    refine ⟨(min x1 x2 + k,
      froundU32 (faddIter (Fl.fin ((natToF32 (lineSeedY x1 y1 x2 y2) : ℚ)))
        (fdiv ((natToF32 y2 : ℚ) - (natToF32 y1 : ℚ))
          ((natToF32 x2 : ℚ) - (natToF32 x1 : ℚ))) k), s.stroke_value),
      (mem_lineWritesAux _ _ _ _ _).mpr ⟨k, by omega, rfl⟩, rfl, rfl⟩

theorem line_miss (s : Screen) (x1 y1 x2 y2 a b : Nat)
    (hlen : s.buffer.length = s.width * s.height) (hs : s.stroke = true)
    (hmiss : a < min x1 x2 ∨ max x1 x2 < a ∨
      b ≠ lineRasterY x1 y1 x2 y2 (a - min x1 x2)) :
    getCell? (line s x1 y1 x2 y2) a b = getCell? s a b := by
  unfold line
  rw [if_pos hs]
  apply getCell?_writeCells_none s _ a b hlen
  apply lastVal_eq_none
  intro e he
  rcases (mem_lineWritesAux _ _ _ _ _).mp he with ⟨j, hj, rfl⟩
  rintro ⟨h1, h2⟩
  have h1a : min x1 x2 + j = a := h1
  have hmm : min x1 x2 ≤ max x1 x2 := min_le_max
  rcases hmiss with hm | hm | hm
  · omega
  · omega
  · apply hm
    have h2a : lineRasterY x1 y1 x2 y2 j = b := h2
    rw [show a - min x1 x2 = j from by omega]
    exact h2a.symm

theorem line0134_slope :
    fdiv ((natToF32 4 : ℚ) - (natToF32 1 : ℚ)) ((natToF32 3 : ℚ) - (natToF32 0 : ℚ)) =
      Fl.fin 1 := by
  rw [show natToF32 4 = 4 from by decide, show natToF32 1 = 1 from by decide,
    show natToF32 3 = 3 from by decide, show natToF32 0 = 0 from by decide,
    fdiv_ne _ _ (by norm_num)]
  norm_num

theorem line0134_seed : lineSeedY 0 1 3 4 = 1 := by
  unfold lineSeedY
  rw [line0134_slope, show fgtZero (Fl.fin 1) = true from by norm_num [fgtZero],
    if_pos rfl]
  exact Nat.min_eq_left (by omega)

theorem line0134_rasterY (k : Nat) (hk : k ≤ 3) : lineRasterY 0 1 3 4 k = k + 1 := by
  unfold lineRasterY
  rw [line0134_slope, line0134_seed, show natToF32 1 = 1 from by decide, faddIter_fin]
  have hcast : ((1 : Nat) : ℚ) + (k : ℚ) * 1 = (((k + 1 : Nat)) : ℚ) := by
    push_cast
    ring
  rw [hcast, froundU32_natCast (k + 1) (by omega)]

/-- C4: `line` is a no-op when stroke is disabled; with stroke enabled it
writes the stroke character at exactly one cell per column from
`min x1 x2` to `max x1 x2` inclusive (the `k`-th column gets row
`lineRasterY k`, every cell off that set is unchanged); in particular
`line 0 1 3 4` with stroke `*` (slope exactly 1, so the rational model
coincides with `f32`) writes `*` exactly at `(0,1), (1,2), (2,3), (3,4)`
— one cell per column at monotonically increasing rounded `y` — and leaves
every other cell unchanged. -/
theorem C4_line_spec (s : Screen) (x1 y1 x2 y2 : Nat)
    (hlen : s.buffer.length = s.width * s.height) (k a b : Nat) :
    (s.stroke = false → line s x1 y1 x2 y2 = s) ∧
    (s.stroke = true →
      (k ≤ max x1 x2 - min x1 x2 → min x1 x2 + k < s.width →
        lineRasterY x1 y1 x2 y2 k < s.height →
        getCell? (line s x1 y1 x2 y2) (min x1 x2 + k) (lineRasterY x1 y1 x2 y2 k) =
          some s.stroke_value) ∧
      ((a < min x1 x2 ∨ max x1 x2 < a ∨ b ≠ lineRasterY x1 y1 x2 y2 (a - min x1 x2)) →
        getCell? (line s x1 y1 x2 y2) a b = getCell? s a b)) ∧
    (s.stroke = true → s.stroke_value = '*' → 4 ≤ s.width → 5 ≤ s.height →
      (getCell? (line s 0 1 3 4) 0 1 = some '*' ∧
        getCell? (line s 0 1 3 4) 1 2 = some '*' ∧
        getCell? (line s 0 1 3 4) 2 3 = some '*' ∧
        getCell? (line s 0 1 3 4) 3 4 = some '*') ∧
      (¬((a = 0 ∧ b = 1) ∨ (a = 1 ∧ b = 2) ∨ (a = 2 ∧ b = 3) ∨ (a = 3 ∧ b = 4)) →
        getCell? (line s 0 1 3 4) a b = getCell? s a b)) := by
  refine ⟨?_, ?_, ?_⟩
  · intro hoff
    unfold line
    rw [if_neg (by rw [hoff]; exact Bool.false_ne_true)]
  · intro hstroke
    exact ⟨fun hk hw hh => line_hit s x1 y1 x2 y2 k hlen hstroke hk hw hh,
      fun hm => line_miss s x1 y1 x2 y2 a b hlen hstroke hm⟩
  · intro hstroke hsv hw hh
    have hmin : min (0 : Nat) 3 = 0 := Nat.min_eq_left (by omega)
    have hmax : max (0 : Nat) 3 = 3 := Nat.max_eq_right (by omega)
    constructor
    · refine ⟨?_, ?_, ?_, ?_⟩
      · have h0 := line_hit s 0 1 3 4 0 hlen hstroke (by omega) (by omega)
          (by rw [line0134_rasterY 0 (by omega)]; omega)
        rw [hmin, line0134_rasterY 0 (by omega), hsv] at h0
        exact h0
      · have h1 := line_hit s 0 1 3 4 1 hlen hstroke (by omega) (by omega)
          (by rw [line0134_rasterY 1 (by omega)]; omega)
        rw [hmin, line0134_rasterY 1 (by omega), hsv] at h1
        exact h1
      · have h2 := line_hit s 0 1 3 4 2 hlen hstroke (by omega) (by omega)
          (by rw [line0134_rasterY 2 (by omega)]; omega)
        rw [hmin, line0134_rasterY 2 (by omega), hsv] at h2
        exact h2
      · have h3 := line_hit s 0 1 3 4 3 hlen hstroke (by omega) (by omega)
          (by rw [line0134_rasterY 3 (by omega)]; omega)
        rw [hmin, line0134_rasterY 3 (by omega), hsv] at h3
        exact h3
    · intro hmiss
      by_cases ha : 3 < a
      · exact line_miss s 0 1 3 4 a b hlen hstroke (Or.inr (Or.inl (by omega)))
      · apply line_miss s 0 1 3 4 a b hlen hstroke
        refine Or.inr (Or.inr ?_)
        have hsub : a - min 0 3 = a := by omega
        rw [hsub, line0134_rasterY a (by omega)]
        omega

/-- C4 witness: the line contract instantiated on the 4-by-5 stroke-only
canvas with `x1 y1 x2 y2 = 0 1 3 4`, `k = 0` and probe cell `(0, 0)`. -/
theorem C4_line_spec_witness :
    (sampleLine45.buffer.length = sampleLine45.width * sampleLine45.height) ∧
    ((sampleLine45.stroke = false → line sampleLine45 0 1 3 4 = sampleLine45) ∧
    (sampleLine45.stroke = true →
      (0 ≤ max 0 3 - min 0 3 → min 0 3 + 0 < sampleLine45.width →
        lineRasterY 0 1 3 4 0 < sampleLine45.height →
        getCell? (line sampleLine45 0 1 3 4) (min 0 3 + 0) (lineRasterY 0 1 3 4 0) =
          some sampleLine45.stroke_value) ∧
      ((0 < min 0 3 ∨ max 0 3 < 0 ∨ (0 : Nat) ≠ lineRasterY 0 1 3 4 (0 - min 0 3)) →
        getCell? (line sampleLine45 0 1 3 4) 0 0 = getCell? sampleLine45 0 0)) ∧
    (sampleLine45.stroke = true → sampleLine45.stroke_value = '*' →
      4 ≤ sampleLine45.width → 5 ≤ sampleLine45.height →
      (getCell? (line sampleLine45 0 1 3 4) 0 1 = some '*' ∧
        getCell? (line sampleLine45 0 1 3 4) 1 2 = some '*' ∧
        getCell? (line sampleLine45 0 1 3 4) 2 3 = some '*' ∧
        getCell? (line sampleLine45 0 1 3 4) 3 4 = some '*') ∧
      (¬(((0 : Nat) = 0 ∧ (0 : Nat) = 1) ∨ ((0 : Nat) = 1 ∧ (0 : Nat) = 2) ∨
          ((0 : Nat) = 2 ∧ (0 : Nat) = 3) ∨ ((0 : Nat) = 3 ∧ (0 : Nat) = 4)) →
        getCell? (line sampleLine45 0 1 3 4) 0 0 = getCell? sampleLine45 0 0))) :=
  ⟨by decide, C4_line_spec sampleLine45 0 1 3 4 (by decide) 0 0 0⟩
